import Mathlib

/-!
# Dynamic-sequelize-orm-toolkit: cross-store join engine, relationship registrar, model cache

A shallow embedding of `src/utils/crossJoinModels.js`, `src/utils/dynamicAssociations.js`
and `src/utils/getModels.js`, followed by the properties established about them.

## JavaScript values

The join engine reads a field of every primary row, puts the values in a `Set`,
drops the falsy ones, and later uses them as property keys of a plain object
(`foreignMap = {}`).  Three pieces of JavaScript semantics therefore matter and are
modelled explicitly:

* truthiness (`filter(Boolean)`, `||`, `!x`),
* `SameValueZero` (the equality of `Set`): primitives by value, objects by identity,
* property access on a plain object: the key is converted to a string, own
  properties are looked up first, then the members inherited from `Object.prototype`.

Scope of the value model: numbers are the integers (no fractions, no `NaN`), objects
are plain extensible objects with primitive fields (the raw rows returned by
`findAll({raw: true})`) or arrays of such objects, and field names of rows and the
option `as` are ordinary names (never `__proto__`, whose assignment would change
the prototype instead of creating a property).
-/

namespace CrossJoin

/-- Primitive JavaScript values: the column values of a raw row. -/
inductive Prim where
  | undefined
  | null
  | bool (b : Bool)
  | num (n : Int)
  | str (s : String)
  deriving DecidableEq, Repr

/-- A raw row as returned by `findAll` with `raw: true`: own fields with primitive values. -/
abbrev Item := List (String × Prim)

/-- JavaScript values seen by the join engine.  `obj` and `arr` carry the identity
(`ref`) of the object; `builtin name` is the value that reading the property `name`
of an empty plain object yields (a member inherited from `Object.prototype`; for
`__proto__` it is `Object.prototype` itself). -/
inductive Val where
  | undefined
  | null
  | bool (b : Bool)
  | num (n : Int)
  | str (s : String)
  | builtin (name : String)
  | obj (ref : Nat) (fields : Item)
  | arr (ref : Nat) (elems : List (Nat × Item))
  deriving DecidableEq, Repr

/-- A primary row: a plain object, own properties in insertion order. -/
abbrev Row := List (String × Val)

/-- Embedding of a primitive into the values. -/
def Prim.toVal : Prim → Val
  | .undefined => .undefined
  | .null => .null
  | .bool b => .bool b
  | .num n => .num n
  | .str s => .str s

/-- The names of the properties every plain object inherits from `Object.prototype`. -/
def objectPrototypeNames : List String :=
  ["constructor", "__defineGetter__", "__defineSetter__", "hasOwnProperty",
   "__lookupGetter__", "__lookupSetter__", "isPrototypeOf", "propertyIsEnumerable",
   "toString", "valueOf", "__proto__", "toLocaleString"]

/-- Reading `name` on `Object.prototype`: an inherited member or `undefined`. -/
def objectPrototypeGet (name : String) : Val :=
  if name ∈ objectPrototypeNames then .builtin name else .undefined

/-- JavaScript truthiness (`Boolean(v)`). -/
def truthy : Val → Bool
  | .undefined => false
  | .null => false
  | .bool b => b
  | .num n => n != 0
  | .str s => s != ""
  | .builtin _ => true
  | .obj _ _ => true
  | .arr _ _ => true

/-- The equality used by `Set`: primitives by value, objects by identity. -/
def sameValueZero : Val → Val → Bool
  | .undefined, .undefined => true
  | .null, .null => true
  | .bool a, .bool b => a == b
  | .num a, .num b => a == b
  | .str a, .str b => a == b
  | .builtin a, .builtin b => a == b
  | .obj r _, .obj s _ => r == s
  | .arr r _, .arr s _ => r == s
  | .obj r _, .arr s _ => r == s
  | .arr r _, .obj s _ => r == s
  | _, _ => false

/-- The string a value is converted to when it is used as a property key. -/
def toPropertyKey : Val → String
  | .undefined => "undefined"
  | .null => "null"
  | .bool true => "true"
  | .bool false => "false"
  | .num n => toString n
  | .str s => s
  | .builtin name =>
      if name = "__proto__" then "[object Object]"
      else "function " ++ name ++ "() \x7b [native code] \x7d"
  | .obj _ _ => "[object Object]"
  | .arr _ elems => ",".intercalate (elems.map (fun _ => "[object Object]"))

/-- Property read `row[name]` on a plain object with own properties `row`. -/
def getProp (row : Row) (name : String) : Val :=
  match row.lookup name with
  | some v => v
  | none => objectPrototypeGet name

/-- Property read `item[name]` on a raw row. -/
def getItemProp (item : Item) (name : String) : Val :=
  match item.lookup name with
  | some p => p.toVal
  | none => objectPrototypeGet name

/-- Property write `obj[name] = v` creating or overwriting an own property; an
overwritten property keeps its position. -/
def setProp {α : Type} (obj : List (String × α)) (name : String) (v : α) : List (String × α) :=
  match obj with
  | [] => [(name, v)]
  | (k, w) :: rest => if k = name then (k, v) :: rest else (k, w) :: setProp rest name v

/-- Contents of `new Set(values)`, in insertion order. -/
def setOf (values : List Val) : List Val :=
  values.foldl (fun acc v => if acc.any (sameValueZero v) then acc else acc ++ [v]) []

/-- Step 1 of the join: `[...new Set(enrichedData.map((row) => row[mapKey]))].filter(Boolean)`. -/
def joinValues (enrichedData : List Row) (mapKey : String) : List Val :=
  (setOf (enrichedData.map (fun row => getProp row mapKey))).filter truthy

/-! ## The join specification and the foreign store -/

/-- Value of a field of a filter object: a single value or a list of admitted values. -/
inductive WhereVal where
  | val (v : Val)
  | list (vs : List Val)
  deriving DecidableEq, Repr

/-- A filter object (`where`): own properties in insertion order. -/
abbrev WhereObj := List (String × WhereVal)

/-- The options object passed to `foreignModel.findAll`. -/
structure FindOptions where
  «where» : WhereObj
  attributes : List String
  raw : Bool
  order : List (String × String)
  limit : Option Val
  offset : Option Val
  deriving DecidableEq, Repr

/-- The target entity of a join: its declared fields and its query capability.
`findAll` either returns the raw rows or fails with the error of the store. -/
structure ForeignModel where
  rawAttributes : List String
  findAll : FindOptions → Except String (List Item)

/-- One element of `orderBy`. -/
structure OrderClause where
  field : String
  direction : Option String := none
  deriving DecidableEq, Repr

/-- A join configuration object, with the defaults of the destructuring in
`crossJoinModels` (`attributes = []`, `multi = false`, `where = []`, `limit = null`,
`skip = 0`, `orderBy = []`). -/
structure JoinSpec where
  foreignModel : ForeignModel
  joinKey : String
  mapKey : String
  as : String
  attributes : List String := []
  multi : Bool := false
  «where» : List WhereObj := []
  limit : Val := .null
  skip : Val := .num 0
  orderBy : List OrderClause := []

/-- The batch size of step 4: `const BATCH_SIZE = 500`. -/
def BATCH_SIZE : Nat := 500

/-- Object spread / `Object.assign`: the own properties of `src` are written onto
`target` in order. -/
def assign {α : Type} (target src : List (String × α)) : List (String × α) :=
  src.foldl (fun acc kv => setProp acc kv.1 kv.2) target

/-- Step 2: `finalWhere`, the base condition `{ [joinKey]: joinValues }`, spread
together with `Object.assign({}, ...where)` when `where` is not empty. -/
def finalWhere (joinKey : String) (values : List Val) (filters : List WhereObj) : WhereObj :=
  let baseCondition : WhereObj := [(joinKey, .list values)]
  if filters.length != 0 then
    assign (assign [] baseCondition) (filters.foldl assign [])
  else baseCondition

/-- The method `toUpperCase` of strings, letter by letter (ASCII letters). -/
def toUpperCase (s : String) : String := ⟨s.data.map Char.toUpper⟩

/-- Step 3: the `order` option. -/
def orderOf (orderBy : List OrderClause) : List (String × String) :=
  if orderBy.length != 0 then
    orderBy.map (fun o =>
      (o.field,
        match o.direction with
        | some d => if toUpperCase d != "" then toUpperCase d else "ASC"
        | none => "ASC"))
  else [("created_at", "DESC")]

/-- The argument of `findAll` for one batch of key values. -/
def findOptions (j : JoinSpec) (values batch : List Val) : FindOptions where
  «where» := setProp (assign [] (finalWhere j.joinKey values j.«where»)) j.joinKey (.list batch)
  attributes := if j.attributes.length != 0 then j.attributes else [j.joinKey]
  raw := true
  order := orderOf j.orderBy
  limit := if truthy j.limit then some j.limit else none
  offset := if truthy j.skip then some j.skip else none

/-- `array.slice(start, stop)`. -/
def slice {α : Type} (xs : List α) (start stop : Nat) : List α :=
  (xs.drop start).take (stop - start)

/-- State of the batch loop: the rows fetched so far (each a fresh object with its
reference), the next free object reference and the `findAll` calls issued. -/
structure FetchState where
  foreignData : List (Nat × Item)
  next : Nat
  calls : List FindOptions

/-- The fresh objects of one `findAll` result, numbered from `next`. -/
def allocate (next : Nat) (result : List Item) : List (Nat × Item) :=
  (List.range result.length).map (fun i => next + i) |>.zip result

/-- Step 4: `for (let i = 0; i < joinValues.length; i += BATCH_SIZE)`.  The first
argument bounds the number of iterations (`none` when it is exhausted); the second
component of the result is the error thrown by `findAll`, if any. -/
def fetchLoop (j : JoinSpec) (values : List Val) :
    Nat → Nat → FetchState → Option (FetchState × Option String)
  | 0, i, acc => if i < values.length then none else some (acc, none)
  | fuel + 1, i, acc =>
    if i < values.length then
      let batch := slice values i (i + BATCH_SIZE)
      let options := findOptions j values batch
      match j.foreignModel.findAll options with
      | .error e => some ({ acc with calls := acc.calls ++ [options] }, some e)
      | .ok result =>
        fetchLoop j values fuel (i + BATCH_SIZE)
          { foreignData := acc.foreignData ++ allocate acc.next result
            next := acc.next + result.length
            calls := acc.calls ++ [options] }
    else some (acc, none)

/-! ## The join result map -/

/-- The object `foreignMap`: its own properties and its prototype, which is
`Object.prototype` (`none`) until an assignment to the key `__proto__` replaces
it by the assigned row. -/
structure ForeignMap where
  own : List (String × Val)
  proto : Option (Nat × Item)
  deriving DecidableEq, Repr

/-- Property read `foreignMap[key]`: own properties, then the prototype chain. -/
def ForeignMap.get (m : ForeignMap) (key : String) : Val :=
  match m.own.lookup key with
  | some v => v
  | none =>
    match m.proto with
    | none => objectPrototypeGet key
    | some (r, p) => if key = "__proto__" then .obj r p else getItemProp p key

/-- One iteration of step 5 for the fetched row `item`. -/
def mapStep (multi : Bool) (joinKey : String) (acc : ForeignMap × Nat) (item : Nat × Item) :
    Except String (ForeignMap × Nat) :=
  let m := acc.1
  let key := toPropertyKey (getItemProp item.2 joinKey)
  if multi then
    -- `if (!foreignMap[key]) foreignMap[key] = [];` (never taken for `__proto__`, whose read is truthy)
    let acc1 : ForeignMap × Nat :=
      if !truthy (m.get key) then ({ m with own := setProp m.own key (.arr acc.2 []) }, acc.2 + 1)
      else acc
    -- `foreignMap[key].push(item);`
    match acc1.1.get key with
    | .arr r elems => .ok ({ acc1.1 with own := setProp acc1.1.own key (.arr r (elems ++ [item])) }, acc1.2)
    | _ => .error "TypeError: foreignMap[key].push is not a function"
  else
    -- `foreignMap[key] = item;` (the key `__proto__` is a setter of the prototype)
    if key = "__proto__" then .ok ({ m with proto := some item }, acc.2)
    else .ok ({ m with own := setProp m.own key (.obj item.1 item.2) }, acc.2)

/-- Step 5: `for (const item of foreignData)`, starting from `foreignMap = {}`. -/
def buildMap (multi : Bool) (joinKey : String) (foreignData : List (Nat × Item)) (next : Nat) :
    Except String (ForeignMap × Nat) :=
  foreignData.foldlM (mapStep multi joinKey) ({ own := [], proto := none }, next)

/-- Step 6: `enrichedData.forEach((row) => row[as] = foreignMap[row[mapKey]] || (multi ? [] : null))`.
Every evaluation of `[]` creates a new array. -/
def attach (m : ForeignMap) (j : JoinSpec) : List Row → Nat → List Row × Nat
  | [], next => ([], next)
  | row :: rest, next =>
    let found := m.get (toPropertyKey (getProp row j.mapKey))
    if truthy found then
      let r := attach m j rest next
      (setProp row j.as found :: r.1, r.2)
    else if j.multi then
      let r := attach m j rest (next + 1)
      (setProp row j.as (.arr next []) :: r.1, r.2)
    else
      let r := attach m j rest next
      (setProp row j.as .null :: r.1, r.2)

/-- The branch without key values: `enrichedData.forEach((row) => (row[as] = multi ? [] : null))`. -/
def attachEmpty (j : JoinSpec) : List Row → Nat → List Row × Nat
  | [], next => ([], next)
  | row :: rest, next =>
    if j.multi then
      let r := attachEmpty j rest (next + 1)
      (setProp row j.as (.arr next []) :: r.1, r.2)
    else
      let r := attachEmpty j rest next
      (setProp row j.as .null :: r.1, r.2)

/-! ## crossJoinModels -/

/-- State of a call: the primary row objects (shared between `primaryData` and
`enrichedData`, mutated in place), the next free object reference, and the
`findAll` calls issued, one list per join specification processed so far. -/
structure JoinState where
  rows : List Row
  next : Nat
  calls : List (List FindOptions)

/-- The body of `for (const join of joins)`; the second component is the error
thrown, if any. -/
def joinBody (j : JoinSpec) (st : JoinState) : JoinState × Option String :=
  let values := joinValues st.rows j.mapKey
  if values.length = 0 then
    let r := attachEmpty j st.rows st.next
    ({ rows := r.1, next := r.2, calls := st.calls ++ [[]] }, none)
  else
    match fetchLoop j values values.length 0 { foreignData := [], next := st.next, calls := [] } with
    | none => ({ st with calls := st.calls ++ [[]] }, some "batch loop bound exhausted")
    | some (fs, some e) => ({ rows := st.rows, next := fs.next, calls := st.calls ++ [fs.calls] }, some e)
    | some (fs, none) =>
      match buildMap j.multi j.joinKey fs.foreignData fs.next with
      | .error e => ({ rows := st.rows, next := fs.next, calls := st.calls ++ [fs.calls] }, some e)
      | .ok (m, next) =>
        let r := attach m j st.rows next
        ({ rows := r.1, next := r.2, calls := st.calls ++ [fs.calls] }, none)

/-- The loop `for (const join of joins)`, which stops at the first error. -/
def joinLoop : List JoinSpec → JoinState → JoinState × Option String
  | [], st => (st, none)
  | j :: rest, st =>
    match joinBody j st with
    | (st1, none) => joinLoop rest st1
    | (st1, some e) => (st1, some e)

/-- The function `crossJoinModels({ primaryData, joins })`.  `next` is the first object
reference not in use when the call starts.  The result is the final state together
with the returned array or the error thrown. -/
def crossJoinModels (primaryData : List Row) (joins : List JoinSpec) (next : Nat) :
    JoinState × Except String (List Row) :=
  if primaryData.length = 0 then ({ rows := primaryData, next := next, calls := [] }, .ok [])
  else
    match joinLoop joins { rows := primaryData, next := next, calls := [] } with
    | (st, none) => (st, .ok st.rows)
    | (st, some e) => (st, .error e)

end CrossJoin

/-!
## The relationship registrar (`src/utils/dynamicAssociations.js`)

Entity handles are objects of the store library.  They are referred to by their
position in `World.models`; a descriptor field that is `undefined`, or that refers to
no entity, is `none`.  The association table `from.associations` is a plain object of
the library: its own properties are the registered associations, and a read of it also
finds the members inherited from `Object.prototype`.  The library calls
`from.hasMany`, `from.belongsTo` and `from.belongsToMany` are not part of this
repository: what such a call does in a given state of the entity handles (return, or
throw before or after it registered the association under its alias) is a parameter of
the world, `World.library`.
-/

namespace Registrar

/-- An association registered on an entity handle: the library call that made it,
its target and the options it was given. -/
structure Association where
  kind : String
  target : Nat
  as : String
  foreignKey : Option String
  sourceKey : Option String
  targetKey : Option String
  through : Option String
  constraints : Bool
  deriving DecidableEq, Repr

/-- An entity handle: its `name` and its table `associations` (`none` when the
property is not defined). -/
structure Model where
  name : String
  associations : Option (List (String × Association))
  deriving DecidableEq, Repr

/-- The second argument of `ensureAssociation`, with the default `constraints = false`. -/
structure Descriptor where
  «from» : Option Nat
  «to» : Option Nat
  as : Option String
  type : Option String
  foreignKey : Option String := none
  sourceKey : Option String := none
  targetKey : Option String := none
  through : Option String := none
  constraints : Bool := false
  deriving DecidableEq, Repr

/-- One attachment performed on an entity handle. -/
structure Attachment where
  source : Nat
  as : String
  association : Association
  deriving DecidableEq, Repr

/-- What a call of `from.hasMany`, `from.belongsTo` or `from.belongsToMany` does: it
returns, having registered the association; it throws without having registered it;
or it throws after it registered the association under its alias. -/
inductive LibraryOutcome where
  | returns
  | throwsBefore (error : String)
  | throwsAfter (error : String)
  deriving DecidableEq, Repr

/-- The state the registrar works on: the entity handles, the map `_WIRED` from
schema handles to their sets of wired keys, the record of the attachments performed
so far (the associations registered on an entity by a library call), and the
behaviour of the library: the outcome of a call, given the entity handles as they
stand, on the entity at a position with the association requested. -/
structure World where
  models : List Model
  wired : List (Nat × List String)
  attachments : List Attachment
  library : List Model → Nat → Association → LibraryOutcome

/-- The entity a descriptor field refers to, with its position. -/
def entity (w : World) (ref : Option Nat) : Option (Nat × Model) :=
  match ref with
  | none => none
  | some i =>
    match w.models[i]? with
    | none => none
    | some m => some (i, m)

/-- A string option that is truthy: defined and not the empty string. -/
def present (s : Option String) : Option String :=
  match s with
  | some v => if v = "" then none else some v
  | none => none

/-- The function `_assocKey`: the template string of the names, the type and the alias. -/
def _assocKey (fromModel toModel : Model) (as type : String) : String :=
  fromModel.name ++ "::" ++ type ++ "::" ++ as ++ "::" ++ toModel.name

/-- The set of wired keys of a schema handle: `_WIRED.get(sequelize)`. -/
def wiredGet (wired : List (Nat × List String)) (sequelize : Nat) : Option (List String) :=
  wired.lookup sequelize

/-- The assignment `_WIRED.set(sequelize, cache)`. -/
def wiredSet (wired : List (Nat × List String)) (sequelize : Nat) (cache : List String) :
    List (Nat × List String) :=
  match wired with
  | [] => [(sequelize, cache)]
  | (k, c) :: rest =>
    if k = sequelize then (k, cache) :: rest else (k, c) :: wiredSet rest sequelize cache

/-- The keys wired for a schema handle (none when it has no set yet). -/
def wiredKeys (w : World) (sequelize : Nat) : List String :=
  (wiredGet w.wired sequelize).getD []

/-- The call `cache.add(key)` on the set of the schema handle. -/
def addKey (w : World) (sequelize : Nat) (key : String) : World :=
  let cache := wiredKeys w sequelize
  { w with wired := wiredSet w.wired sequelize (if key ∈ cache then cache else cache ++ [key]) }

/-- The test `from.associations && from.associations[as]`: the read is truthy for a
registered association and for a member the table inherits from `Object.prototype`. -/
def exposes (m : Model) (as : String) : Bool :=
  match m.associations with
  | none => false
  | some table => (table.lookup as).isSome || decide (as ∈ CrossJoin.objectPrototypeNames)

/-- The entity at position `i` exposes the alias `as`. -/
def exposesAt (w : World) (i : Nat) (as : String) : Bool :=
  match w.models[i]? with
  | none => false
  | some m => exposes m as

/-- Replacement of the entity at position `i` by `f` of it. -/
def updateModel (models : List Model) (i : Nat) (f : Model → Model) : List Model :=
  match models, i with
  | [], _ => []
  | m :: rest, 0 => f m :: rest
  | m :: rest, i + 1 => m :: updateModel rest i f

/-- The association is registered under its alias in the table of the entity at
position `source`, and the attachment is recorded. -/
def register (w : World) (source : Nat) (a : Association) : World :=
  { w with
    models := updateModel w.models source
      (fun m => { m with associations := some (CrossJoin.setProp (m.associations.getD []) a.as a) })
    attachments := w.attachments ++ [{ source := source, as := a.as, association := a }] }

/-- The library calls `from.hasMany`, `from.belongsTo`, `from.belongsToMany`: the state
after the call and its outcome. -/
def attach (w : World) (source : Nat) (a : Association) : World × Except String Unit :=
  match w.library w.models source a with
  | .returns => (register w source a, .ok ())
  | .throwsBefore e => (w, .error e)
  | .throwsAfter e => (register w source a, .error e)

/-- The end of `ensureAssociation` after the `switch`: `cache.add(key)` when the library
call returned, the error of the library call otherwise. -/
def recordKey (r : World × Except String Unit) (handle : Nat) (key : String) :
    World × Except String Unit :=
  match r.2 with
  | .ok _ => (addKey r.1 handle key, .ok ())
  | .error e => (r.1, .error e)

/-- The lookup `let cache = _WIRED.get(sequelize)` followed by
`if (!cache) { cache = new Set(); _WIRED.set(sequelize, cache); }`. -/
def withCache (w : World) (handle : Nat) : World :=
  match wiredGet w.wired handle with
  | some _ => w
  | none => { w with wired := wiredSet w.wired handle [] }

/-- The function `ensureAssociation(sequelize, descriptor)`: the state after the call
and its outcome (normal return or the error thrown). -/
def ensureAssociation (sequelize : Option Nat) (d : Descriptor) (w : World) :
    World × Except String Unit :=
  match sequelize with
  | none => (w, .error "ensureAssociation: 'sequelize' is required")
  | some handle =>
    match entity w d.«from», entity w d.«to» with
    | some (source, fromModel), some (target, toModel) =>
      match present d.as, present d.type with
      | some as, some type =>
        let w1 := withCache w handle
        let key := _assocKey fromModel toModel as type
        if key ∈ wiredKeys w1 handle then (w1, .ok ())
        else if exposes fromModel as then (addKey w1 handle key, .ok ())
        else if type = "hasMany" then
          recordKey (attach w1 source
            { kind := "hasMany", target := target, as := as, foreignKey := d.foreignKey,
              sourceKey := d.sourceKey, targetKey := none, through := none,
              constraints := d.constraints }) handle key
        else if type = "belongsTo" then
          recordKey (attach w1 source
            { kind := "belongsTo", target := target, as := as, foreignKey := d.foreignKey,
              sourceKey := none, targetKey := d.targetKey, through := none,
              constraints := d.constraints }) handle key
        else if type = "belongsToMany" then
          match present d.through with
          | none => (w1, .error "belongsToMany requires 'through'")
          | some through =>
            recordKey (attach w1 source
              { kind := "belongsToMany", target := target, as := as, foreignKey := d.foreignKey,
                sourceKey := none, targetKey := none, through := some through,
                constraints := d.constraints }) handle key
        else (w1, .error ("Unsupported association type: " ++ type))
      | _, _ => (w, .error "ensureAssociation: 'as' and 'type' are required")
    | _, _ => (w, .error "ensureAssociation: 'from' and 'to' are required")

/-- A sequence of `ensureAssociation` calls on the same world, each caller going on
after an error. -/
def ensureAll : List (Option Nat × Descriptor) → World → World
  | [], w => w
  | (sequelize, d) :: rest, w => ensureAll rest (ensureAssociation sequelize d w).1

/-- The kinds the `switch` of `ensureAssociation` handles. -/
def supportedTypes : List String := ["hasMany", "belongsTo", "belongsToMany"]

/-- The association the `switch` of `ensureAssociation` asks the library for, for a
descriptor of a supported type with the alias `as` and the target at position
`target`. -/
def requested (d : Descriptor) (type as : String) (target : Nat) : Association :=
  if type = "hasMany" then
    { kind := "hasMany", target := target, as := as, foreignKey := d.foreignKey,
      sourceKey := d.sourceKey, targetKey := none, through := none, constraints := d.constraints }
  else if type = "belongsTo" then
    { kind := "belongsTo", target := target, as := as, foreignKey := d.foreignKey,
      sourceKey := none, targetKey := d.targetKey, through := none, constraints := d.constraints }
  else
    { kind := "belongsToMany", target := target, as := as, foreignKey := d.foreignKey,
      sourceKey := none, targetKey := none, through := present d.through,
      constraints := d.constraints }

/-- A descriptor the validation and the `switch` accept: entities, alias and type
present, a supported type, and a `through` entity for `belongsToMany`. -/
def validDescriptor (w : World) (d : Descriptor) : Bool :=
  match entity w d.«from», entity w d.«to», present d.as, present d.type with
  | some _, some _, some _, some type =>
    decide (type ∈ supportedTypes) && (type != "belongsToMany" || (present d.through).isSome)
  | _, _, _, _ => false

/-- The relationship of the descriptor counts as wired for `ensureAssociation`: its key
is in the set of the schema handle, or the test `from.associations[as]` succeeds. -/
def alreadyWired (w : World) (handle : Nat) (d : Descriptor) : Bool :=
  match entity w d.«from», entity w d.«to», present d.as, present d.type with
  | some (_, fromModel), some (_, toModel), some as, some type =>
    decide (_assocKey fromModel toModel as type ∈ wiredKeys w handle) || exposes fromModel as
  | _, _, _, _ => false

end Registrar

/-!
## The schema handle cache (`src/utils/getModels.js`)

`modelCache` is a plain object, so `modelCache[dbName]` also finds the members
inherited from `Object.prototype`.  The connection provider `getDb` and the schema
definition source `defineModels` are external: `getDb` is a parameter, which returns
a connection or fails, and `defineModels` returns a new handle set (a new `Proxy`
object) for the connection it is given.
-/

namespace ModelCache

/-- What a read of `modelCache[dbName]` can yield when it is truthy: a handle set
stored earlier (the identity of the proxy object and its connection) or a member
inherited from `Object.prototype`. -/
inductive Handles where
  | models (proxy : Nat) (sequelize : Nat)
  | builtin (name : String)
  deriving DecidableEq, Repr

/-- State of the module: the own properties of `modelCache`, the calls made to the
connection provider and to the schema definition source, and the identity of the
next proxy object. -/
structure State where
  modelCache : List (String × Handles)
  getDbCalls : List String
  defineModelsCalls : List Nat
  nextProxy : Nat
  deriving DecidableEq, Repr

/-- Property read `modelCache[dbName]`; `none` stands for `undefined`. -/
def cacheGet (modelCache : List (String × Handles)) (dbName : String) : Option Handles :=
  match modelCache.lookup dbName with
  | some h => some h
  | none => if dbName ∈ CrossJoin.objectPrototypeNames then some (.builtin dbName) else none

/-- The function `getModels(dbName)`: the state after the call and the value returned
or the error thrown.  `dbName` is `none` when the argument is missing. -/
def getModels (getDb : String → Except String Nat) (dbName : Option String) (s : State) :
    State × Except String Handles :=
  match Registrar.present dbName with
  | none => (s, .error "dbName is required")
  | some name =>
    match cacheGet s.modelCache name with
    | some cached => (s, .ok cached)
    | none =>
      match getDb name with
      | .error e => ({ s with getDbCalls := s.getDbCalls ++ [name] }, .error e)
      | .ok sequelize =>
        let models := Handles.models s.nextProxy sequelize
        ({ modelCache := CrossJoin.setProp s.modelCache name models
           getDbCalls := s.getDbCalls ++ [name]
           defineModelsCalls := s.defineModelsCalls ++ [sequelize]
           nextProxy := s.nextProxy + 1 }, .ok models)

end ModelCache

/-! ## Concrete stores, rows and descriptors used in the examples -/

namespace CrossJoin

/-- A row of `table` satisfies a filter object: every entry holds, a single value by
equality, a list of values by membership. -/
def satisfies (item : Item) (filter : WhereObj) : Bool :=
  filter.all (fun entry =>
    match entry.2 with
    | .val v => decide (getItemProp item entry.1 = v)
    | .list vs => vs.any (fun v => decide (getItemProp item entry.1 = v)))

/-- An entity backed by an in-memory table: `findAll` returns, in table order, the
rows that satisfy the `where` option, restricted to the requested attributes. -/
def tableModel (fields : List String) (table : List Item) : ForeignModel where
  rawAttributes := fields
  findAll := fun options =>
    .ok ((table.filter (fun item => satisfies item options.«where»)).map
      (fun item => item.filter (fun field => field.1 ∈ options.attributes)))

/-- The seller table with one seller whose identifier is the string `null`. -/
def sellersNamedNull : ForeignModel :=
  tableModel ["seller_id", "store_name", "created_at"]
    [[("seller_id", .str "null"), ("store_name", .str "Acme"), ("created_at", .num 1)]]

/-- A seller table without rows. -/
def noSellers : ForeignModel :=
  tableModel ["seller_id", "store_name", "created_at"] []

/-- A seller table with the seller `S1`. -/
def sellers : ForeignModel :=
  tableModel ["seller_id", "store_name", "created_at"]
    [[("seller_id", .str "S1"), ("store_name", .str "Acme"), ("created_at", .num 1)]]

/-- A join of the sellers on `seller_id`, attached under `seller`. -/
def sellerJoin (foreignModel : ForeignModel) (multi : Bool) : JoinSpec :=
  { foreignModel := foreignModel, joinKey := "seller_id", mapKey := "seller_id", as := "seller"
    attributes := ["seller_id", "store_name"], multi := multi }

/-- A product without seller followed by a product of the seller named `null`. -/
def productsNullSeller : List Row :=
  [[("id", .num 1), ("seller_id", .null)], [("id", .num 2), ("seller_id", .str "null")]]

/-- A product whose seller identifier is the string `constructor`. -/
def productsConstructor : List Row := [[("id", .num 1), ("seller_id", .str "constructor")]]

/-- A product of the seller `S1`. -/
def productsS1 : List Row := [[("id", .num 1), ("seller_id", .str "S1")]]

end CrossJoin

namespace CrossJoin

/-- A later join whose `mapKey` is the alias `seller` attached by `sellerJoin`. -/
def sellerAgainJoin : JoinSpec :=
  { foreignModel := sellers, joinKey := "seller_id", mapKey := "seller", as := "again"
    attributes := ["seller_id", "store_name"] }

/-- A store that answers every query with the seller `S1`. -/
def witnessStore : ForeignModel :=
  { rawAttributes := ["seller_id", "store_name"]
    findAll := fun _ => .ok [[("seller_id", .str "S1"), ("store_name", .str "Acme")]] }

/-- A join on `seller_id` against `witnessStore`. -/
def witnessJoin : JoinSpec :=
  { foreignModel := witnessStore, joinKey := "seller_id", mapKey := "seller_id", as := "seller" }

end CrossJoin

namespace Registrar

/-- Two entities without associations and no wired key. -/
def variantWorld : World :=
  { models := [{ name := "ProductVariant", associations := some [] },
               { name := "ProductImage", associations := some [] }]
    wired := []
    attachments := []
    library := fun _ _ _ => .returns }

/-- The descriptor of the images of a variant, as in `getProductDetailService`. -/
def variantImages : Descriptor :=
  { «from» := some 0, «to» := some 1, as := some "ProductImages_Variant", type := some "hasMany"
    foreignKey := some "variant_id", sourceKey := some "variant_id" }

/-- A descriptor of the images of a variant with a kind the `switch` does not know. -/
def variantImagesHasOne : Descriptor :=
  { «from» := some 0, «to» := some 1, as := some "ProductImages_Variant", type := some "hasOne" }

/-- The world of the variants with a library that rejects the source key `nope`, after
it registered the association. -/
def strictVariantWorld : World :=
  { variantWorld with
    library := fun _ _ a =>
      if a.sourceKey = some "nope" then .throwsAfter "Unknown attribute nope passed as sourceKey"
      else .returns }

/-- The images of a variant with the source key `nope`, which the entity does not have. -/
def variantImagesUnknownKey : Descriptor :=
  { «from» := some 0, «to» := some 1, as := some "ProductImages_Variant", type := some "hasMany"
    foreignKey := some "variant_id", sourceKey := some "nope" }

/-- The images of a variant under the alias `toString`, a name every plain object
inherits from `Object.prototype`. -/
def variantToString : Descriptor :=
  { «from» := some 0, «to» := some 1, as := some "toString", type := some "hasMany"
    foreignKey := some "variant_id", sourceKey := some "variant_id" }

/-- The alias `toString` with a kind the `switch` does not know. -/
def variantToStringHasOne : Descriptor :=
  { «from» := some 0, «to» := some 1, as := some "toString", type := some "hasOne" }

/-- Three entities: `Order`, `Item` and an entity named `archived::Item`. -/
def orderWorld : World :=
  { models := [{ name := "Order", associations := some [] },
               { name := "Item", associations := some [] },
               { name := "archived::Item", associations := some [] }]
    wired := []
    attachments := []
    library := fun _ _ _ => .returns }

/-- The relationship `Order` has many `Item` under the alias `items::archived`. -/
def archivedItems : Descriptor :=
  { «from» := some 0, «to» := some 1, as := some "items::archived", type := some "hasMany"
    foreignKey := some "order_id", sourceKey := some "order_id" }

/-- The relationship `Order` has many `archived::Item` under the alias `items`. -/
def orderItems : Descriptor :=
  { «from» := some 0, «to» := some 2, as := some "items", type := some "hasMany"
    foreignKey := some "order_id", sourceKey := some "order_id" }

end Registrar

namespace ModelCache

/-- The module state before any call: an empty `modelCache`. -/
def initial : State :=
  { modelCache := [], getDbCalls := [], defineModelsCalls := [], nextProxy := 0 }

end ModelCache

/-! ## Notions used to state the properties of the join engine -/

namespace CrossJoin

/-- The key values of the iteration number `n` of the batch loop:
`joinValues.slice(i, i + BATCH_SIZE)` for `i = n * BATCH_SIZE`. -/
def batchOf (values : List Val) (n : Nat) : List Val :=
  slice values (n * BATCH_SIZE) (n * BATCH_SIZE + BATCH_SIZE)

/-- The values that are objects with an identity of their own (plain objects and
arrays); all other values are compared by value. -/
def isObject : Val → Bool
  | .obj _ _ => true
  | .arr _ _ => true
  | _ => false

/-- The shallow merge of the filter objects in the words of the specification: the
value of `field` is the one of the last object of `filters` that carries the field. -/
def lastFilterValue (filters : List WhereObj) (field : String) : Option WhereVal :=
  filters.reverse.findSome? (fun o => o.lookup field)

/-- What makes two values the same key value: a primitive is its value, a member
inherited from `Object.prototype` is its name, an object or an array is its identity. -/
inductive Identity where
  | undefined
  | null
  | bool (b : Bool)
  | num (n : Int)
  | str (s : String)
  | builtin (name : String)
  | object (ref : Nat)
  deriving DecidableEq, Repr

/-- The identity of a value. -/
def identityOf : Val → Identity
  | .undefined => .undefined
  | .null => .null
  | .bool b => .bool b
  | .num n => .num n
  | .str s => .str s
  | .builtin name => .builtin name
  | .obj ref _ => .object ref
  | .arr ref _ => .object ref

/-- The values that are neither `null` nor absent (`undefined`). -/
def nonNull : Val → Bool
  | .undefined => false
  | .null => false
  | _ => true

/-- The number of distinct values of the field `mapKey` across `rows` among those
that `keep` admits: the values of the field row by row, the admitted ones, counted
once per identity. -/
def countDistinct (keep : Val → Bool) (rows : List Row) (mapKey : String) : Nat :=
  ((((rows.map (fun row => getProp row mapKey)).filter keep).map identityOf).dedup).length

/-- Modelled from the spec: the number `N` of distinct non-null key values of
`mapKey` across the rows. -/
def distinctKeys (rows : List Row) (mapKey : String) : Nat :=
  countDistinct nonNull rows mapKey

/-- The values that count as key values: neither null nor absent, and not `false`,
`0` or the empty string. -/
def isKeyValue (v : Val) : Bool :=
  nonNull v && decide (v ≠ .bool false) && decide (v ≠ .num 0) && decide (v ≠ .str "")

/-- Modelled from the spec, with the key values in place of the non-null values: the
number of distinct values of `mapKey` across the rows that are neither null nor
absent, and not `false`, `0` or the empty string. -/
def keyCount (rows : List Row) (mapKey : String) : Nat :=
  countDistinct isKeyValue rows mapKey

/-- Three products whose `seller_id` is `0`, `false` and the empty string. -/
def productsFalsyKeys : List Row :=
  [[("id", .num 1), ("seller_id", .num 0)], [("id", .num 2), ("seller_id", .bool false)],
   [("id", .num 3), ("seller_id", .str "")]]

/-- An entity whose store fails on every query. -/
def unreachableModel : ForeignModel :=
  { rawAttributes := ["warehouse_id", "seller_id", "created_at"]
    findAll := fun _ => .error "StoreQueryError: connection lost" }

/-- A join of the warehouses on `seller_id` against the failing store. -/
def unreachableJoin : JoinSpec :=
  { foreignModel := unreachableModel, joinKey := "seller_id", mapKey := "seller_id"
    as := "warehouses", multi := true }

/-- The entity `SellerInfo` of `models/sellerInfoModel.js` (no field `created_at`),
holding the active seller `S1`. -/
def sellerInfo : ForeignModel :=
  tableModel ["seller_id", "store_name", "slug", "store_logo", "status"]
    [[("seller_id", .str "S1"), ("store_name", .str "Acme"), ("slug", .str "acme"),
      ("store_logo", .null), ("status", .str "active")]]

/-- The entity `SellerWarehouse` of `models/sellerWarehouseModel.js`, without rows. -/
def sellerWarehouse : ForeignModel :=
  tableModel ["warehouse_id", "seller_id", "registered_name", "address", "city", "state",
    "pin_code", "country", "is_active", "created_at"] []

/-- The warehouse join of `getProductDetailService`, its direction written in lower
case. -/
def serviceWarehouseJoin : JoinSpec :=
  { foreignModel := sellerWarehouse, joinKey := "seller_id", mapKey := "seller_id"
    as := "warehouses", attributes := ["warehouse_id", "seller_id", "created_at"]
    «where» := [[("is_active", .val (.bool true))]]
    orderBy := [{ field := "created_at", direction := some "desc" }], multi := true }

/-- The seller join of `getProductDetailService`: no `orderBy`. -/
def serviceSellerJoin : JoinSpec :=
  { foreignModel := sellerInfo, joinKey := "seller_id", mapKey := "seller_id", as := "seller"
    attributes := ["seller_id", "store_name", "slug", "store_logo", "status"]
    «where» := [[("status", .val (.str "active"))]], limit := .num 1 }

/-- A join with two filter objects that both carry `status`, the second also the
join key. -/
def overlappingFiltersJoin : JoinSpec :=
  { foreignModel := sellers, joinKey := "seller_id", mapKey := "seller_id", as := "seller"
    «where» := [[("status", .val (.str "active")), ("city", .val (.str "Pune"))],
                [("status", .val (.str "blocked")), ("seller_id", .val (.str "S9"))]] }

end CrossJoin

/-! ## Lemmas on property reads and writes -/

namespace CrossJoin

theorem lookup_setProp_self {α : Type} (obj : List (String × α)) (name : String) (v : α) :
    (setProp obj name v).lookup name = some v := by
  induction obj with
  | nil => simp [setProp, List.lookup]
  | cons kv rest ih =>
    obtain ⟨k, w⟩ := kv
    by_cases hk : k = name
    · subst hk; simp [setProp, List.lookup]
    · have hk2 : (name == k) = false := beq_false_of_ne (fun e => hk e.symm)
      simp only [setProp, hk, if_false, List.lookup, hk2]
      exact ih

theorem lookup_setProp_ne {α : Type} (obj : List (String × α)) (name other : String) (v : α)
    (hne : other ≠ name) : (setProp obj name v).lookup other = obj.lookup other := by
  induction obj with
  | nil =>
    have : (other == name) = false := beq_false_of_ne hne
    simp [setProp, List.lookup, this]
  | cons kv rest ih =>
    obtain ⟨k, w⟩ := kv
    by_cases hk : k = name
    · subst hk
      have : (other == k) = false := beq_false_of_ne hne
      simp [setProp, List.lookup, this]
    · simp only [setProp, hk, if_false, List.lookup]
      cases other == k
      · exact ih
      · rfl

/-- A write to one property does not change the read of another. -/
theorem getProp_setProp_ne (row : Row) (name other : String) (v : Val) (hne : other ≠ name) :
    getProp (setProp row name v) other = getProp row other := by
  simp only [getProp, lookup_setProp_ne row name other v hne]

theorem getProp_setProp_self (row : Row) (name : String) (v : Val) :
    getProp (setProp row name v) name = v := by
  simp only [getProp, lookup_setProp_self]

end CrossJoin
namespace CrossJoin

/-! ## Lemmas on the batch loop and the join loop -/

theorem ceil_batches (n : Nat) : ⌈(n : ℚ) / 500⌉₊ = (n + 499) / 500 := by
  rcases Nat.eq_zero_or_pos n with h | h
  · subst h; simp
  · have hk : (n + 499) / 500 ≠ 0 := by omega
    rw [Nat.ceil_eq_iff hk]
    have h1 : ((n + 499) / 500 - 1) * 500 < n := by omega
    have h2 : n ≤ ((n + 499) / 500) * 500 := by omega
    constructor
    · rw [lt_div_iff₀ (by norm_num)]
      exact_mod_cast h1
    · rw [div_le_iff₀ (by norm_num)]
      exact_mod_cast h2

/-- With enough iterations allowed the batch loop terminates by its own test. -/
theorem fetchLoop_isSome (j : JoinSpec) (values : List Val) :
    ∀ (fuel i : Nat) (acc : FetchState), values.length ≤ i + fuel * BATCH_SIZE →
      (fetchLoop j values fuel i acc).isSome = true := by
  intro fuel
  induction fuel with
  | zero =>
    intro i acc h
    have : ¬ i < values.length := by simpa using h
    simp [fetchLoop, this]
  | succ fuel ih =>
    intro i acc h
    unfold fetchLoop
    by_cases hi : i < values.length
    · simp only [hi, if_true]
      cases hq : j.foreignModel.findAll (findOptions j values (slice values i (i + BATCH_SIZE))) with
      | error e => simp
      | ok r =>
        simp only []
        apply ih
        simp only [BATCH_SIZE] at h ⊢
        omega
    · simp [hi]

/-- When the store answers every query, the batch loop issues one call per batch. -/
theorem fetchLoop_calls (j : JoinSpec) (values : List Val)
    (hstore : ∀ o, ∃ r, j.foreignModel.findAll o = .ok r) :
    ∀ (fuel i : Nat) (acc : FetchState), values.length ≤ i + fuel * BATCH_SIZE →
      ∃ fs, fetchLoop j values fuel i acc = some (fs, none) ∧
        fs.calls.length = acc.calls.length + (values.length - i + 499) / 500 := by
  intro fuel
  induction fuel with
  | zero =>
    intro i acc h
    have hi : ¬ i < values.length := by simpa using h
    refine ⟨acc, by simp [fetchLoop, hi], ?_⟩
    omega
  | succ fuel ih =>
    intro i acc h
    unfold fetchLoop
    by_cases hi : i < values.length
    · simp only [hi, if_true]
      obtain ⟨r, hr⟩ := hstore (findOptions j values (slice values i (i + BATCH_SIZE)))
      rw [hr]
      simp only []
      have hfuel : values.length ≤ (i + BATCH_SIZE) + fuel * BATCH_SIZE := by
        simp only [BATCH_SIZE] at h ⊢
        omega
      obtain ⟨fs, hfs, hlen⟩ := ih (i + BATCH_SIZE) _ hfuel
      refine ⟨fs, hfs, ?_⟩
      rw [hlen]
      simp only [List.length_append, List.length_singleton, BATCH_SIZE]
      omega
    · refine ⟨acc, by simp [hi], ?_⟩
      omega

/-- Every execution of the loop body records exactly one list of calls. -/
theorem joinBody_calls (j : JoinSpec) (st : JoinState) :
    ∃ qs, (joinBody j st).1.calls = st.calls ++ [qs] := by
  unfold joinBody
  by_cases h0 : (joinValues st.rows j.mapKey).length = 0
  · simp [h0]
  · simp only [h0, if_false]
    cases hf : fetchLoop j (joinValues st.rows j.mapKey) (joinValues st.rows j.mapKey).length 0
        { foreignData := [], next := st.next, calls := [] } with
    | none => exact ⟨[], rfl⟩
    | some r =>
      obtain ⟨fs, err⟩ := r
      cases err with
      | some e => exact ⟨fs.calls, rfl⟩
      | none =>
        simp only []
        cases hb : buildMap j.multi j.joinKey fs.foreignData fs.next with
        | error e => exact ⟨fs.calls, rfl⟩
        | ok r => exact ⟨fs.calls, rfl⟩

/-- When the store answers every query, the loop body issues `(N + 499) / 500` calls
for `N` collected key values. -/
theorem joinBody_count (j : JoinSpec) (st : JoinState)
    (hstore : ∀ o, ∃ r, j.foreignModel.findAll o = .ok r) :
    ∃ qs, (joinBody j st).1.calls = st.calls ++ [qs] ∧
      qs.length = ((joinValues st.rows j.mapKey).length + 499) / 500 := by
  unfold joinBody
  by_cases h0 : (joinValues st.rows j.mapKey).length = 0
  · simp [h0]
  · simp only [h0, if_false]
    obtain ⟨fs, hfs, hlen⟩ := fetchLoop_calls j (joinValues st.rows j.mapKey) hstore
      (joinValues st.rows j.mapKey).length 0 { foreignData := [], next := st.next, calls := [] }
      (by simp only [BATCH_SIZE]; omega)
    rw [hfs]
    simp only []
    have hlen2 : fs.calls.length = ((joinValues st.rows j.mapKey).length + 499) / 500 := by
      simpa using hlen
    cases hb : buildMap j.multi j.joinKey fs.foreignData fs.next with
    | error e => exact ⟨fs.calls, rfl, hlen2⟩
    | ok r => exact ⟨fs.calls, rfl, hlen2⟩

theorem joinLoop_cons_ok (j : JoinSpec) (rest : List JoinSpec) (st st1 : JoinState)
    (h : joinBody j st = (st1, none)) : joinLoop (j :: rest) st = joinLoop rest st1 := by
  simp [joinLoop, h]

theorem joinLoop_cons_error (j : JoinSpec) (rest : List JoinSpec) (st st1 : JoinState) (e : String)
    (h : joinBody j st = (st1, some e)) : joinLoop (j :: rest) st = (st1, some e) := by
  simp [joinLoop, h]

/-- The join loop only appends to the record of calls. -/
theorem joinLoop_calls_extend (joins : List JoinSpec) :
    ∀ st : JoinState, ∃ extra, (joinLoop joins st).1.calls = st.calls ++ extra := by
  induction joins with
  | nil => intro st; exact ⟨[], by simp [joinLoop]⟩
  | cons j rest ih =>
    intro st
    obtain ⟨qs, hqs⟩ := joinBody_calls j st
    unfold joinLoop
    cases hb : joinBody j st with
    | mk st1 err =>
      rw [hb] at hqs
      cases err with
      | some e => exact ⟨[qs], hqs⟩
      | none =>
        obtain ⟨extra, hextra⟩ := ih st1
        refine ⟨qs :: extra, ?_⟩
        simp only [hextra]
        simp at hqs
        simp [hqs]

/-- A join loop that ends without error has recorded one list of calls per join. -/
theorem joinLoop_calls_length (joins : List JoinSpec) :
    ∀ st : JoinState, (joinLoop joins st).2 = none →
      (joinLoop joins st).1.calls.length = st.calls.length + joins.length := by
  induction joins with
  | nil => intro st _; simp [joinLoop]
  | cons j rest ih =>
    intro st h
    obtain ⟨qs, hqs⟩ := joinBody_calls j st
    unfold joinLoop at h ⊢
    cases hb : joinBody j st with
    | mk st1 err =>
      rw [hb] at hqs h
      cases err with
      | some e => simp at h
      | none =>
        simp only [] at h ⊢
        rw [ih st1 h]
        simp at hqs
        simp [hqs]
        omega

/-- Running the joins `pre ++ rest` is running `rest` after `pre`, when `pre` ends
without error. -/
theorem joinLoop_append (pre rest : List JoinSpec) :
    ∀ st : JoinState, (joinLoop pre st).2 = none →
      joinLoop (pre ++ rest) st = joinLoop rest (joinLoop pre st).1 := by
  induction pre with
  | nil => intro st _; simp [joinLoop]
  | cons j pre ih =>
    intro st h
    simp only [List.cons_append]
    cases hb : joinBody j st with
    | mk st1 err =>
      cases err with
      | some e => simp [joinLoop_cons_error j pre st st1 e hb] at h
      | none =>
        rw [joinLoop_cons_ok j pre st st1 hb] at h ⊢
        rw [joinLoop_cons_ok j (pre ++ rest) st st1 hb]
        exact ih st1 h

end CrossJoin

namespace CrossJoin

theorem crossJoinModels_state (primaryData : List Row) (joins : List JoinSpec) (next : Nat)
    (h : primaryData ≠ []) :
    (crossJoinModels primaryData joins next).1 =
      (joinLoop joins { rows := primaryData, next := next, calls := [] }).1 := by
  unfold crossJoinModels
  have hl : primaryData.length ≠ 0 := by simpa using h
  simp only [hl, if_false]
  cases hj : joinLoop joins { rows := primaryData, next := next, calls := [] } with
  | mk st err => cases err <;> rfl

/-- The calls recorded for the join at position `pre.length` are those of its loop body. -/
theorem joinLoop_calls_at (pre : List JoinSpec) (j : JoinSpec) (post : List JoinSpec)
    (st : JoinState) (hst : st.calls = []) (hpre : (joinLoop pre st).2 = none) :
    ∃ qs, (joinBody j (joinLoop pre st).1).1.calls = (joinLoop pre st).1.calls ++ [qs] ∧
      (joinLoop (pre ++ j :: post) st).1.calls[pre.length]? = some qs := by
  obtain ⟨qs, hqs⟩ := joinBody_calls j (joinLoop pre st).1
  refine ⟨qs, hqs, ?_⟩
  have hlen : (joinLoop pre st).1.calls.length = pre.length := by
    rw [joinLoop_calls_length pre st hpre, hst]; simp
  rw [joinLoop_append pre (j :: post) st hpre]
  cases hb : joinBody j (joinLoop pre st).1 with
  | mk st1 err =>
    rw [hb] at hqs
    simp only [] at hqs
    cases err with
    | some e =>
      rw [joinLoop_cons_error j post _ st1 e hb]
      simp only [hqs]
      rw [← hlen]
      simp
    | none =>
      rw [joinLoop_cons_ok j post _ st1 hb]
      obtain ⟨extra, hextra⟩ := joinLoop_calls_extend post st1
      rw [hextra, hqs, ← hlen, List.append_assoc, List.getElem?_append_right (le_refl _)]
      simp

end CrossJoin

/-! ## Lemmas on the registrar -/

namespace Registrar

theorem wiredGet_wiredSet_self (wired : List (Nat × List String)) (h : Nat) (c : List String) :
    wiredGet (wiredSet wired h c) h = some c := by
  induction wired with
  | nil => simp [wiredSet, wiredGet, List.lookup]
  | cons kv rest ih =>
    obtain ⟨k, v⟩ := kv
    by_cases hk : k = h
    · subst hk; simp [wiredSet, wiredGet, List.lookup]
    · have hk2 : (h == k) = false := beq_false_of_ne (fun e => hk e.symm)
      simp only [wiredSet, hk, if_false, wiredGet, List.lookup, hk2]
      exact ih

theorem wiredGet_wiredSet_ne (wired : List (Nat × List String)) (h h2 : Nat) (c : List String)
    (hne : h2 ≠ h) : wiredGet (wiredSet wired h c) h2 = wiredGet wired h2 := by
  induction wired with
  | nil =>
    have : (h2 == h) = false := beq_false_of_ne hne
    simp [wiredSet, wiredGet, List.lookup, this]
  | cons kv rest ih =>
    obtain ⟨k, v⟩ := kv
    by_cases hk : k = h
    · subst hk
      have : (h2 == k) = false := beq_false_of_ne hne
      simp [wiredSet, wiredGet, List.lookup, this]
    · simp only [wiredSet, hk, if_false, wiredGet, List.lookup]
      cases h2 == k
      · exact ih
      · rfl

theorem getElem?_updateModel (models : List Model) (i k : Nat) (f : Model → Model) :
    (updateModel models i f)[k]? = (models[k]?).map (fun m => if k = i then f m else m) := by
  induction models generalizing i k with
  | nil => simp [updateModel]
  | cons m rest ih =>
    cases i with
    | zero =>
      cases k with
      | zero => simp [updateModel]
      | succ k => simp [updateModel]
    | succ i =>
      cases k with
      | zero => simp [updateModel]
      | succ k => simp [updateModel, ih]

theorem length_updateModel (models : List Model) (i : Nat) (f : Model → Model) :
    (updateModel models i f).length = models.length := by
  induction models generalizing i with
  | nil => simp [updateModel]
  | cons m rest ih => cases i <;> simp [updateModel, ih]

end Registrar

namespace Registrar

theorem wiredKeys_create (w : World) (handle h : Nat) (hnone : wiredGet w.wired handle = none) :
    wiredKeys { w with wired := wiredSet w.wired handle [] } h = wiredKeys w h := by
  unfold wiredKeys
  by_cases hh : h = handle
  · subst hh
    simp [wiredGet_wiredSet_self, hnone]
  · simp [wiredGet_wiredSet_ne _ _ _ _ hh]

theorem withCache_models (w : World) (handle : Nat) : (withCache w handle).models = w.models := by
  unfold withCache; split <;> rfl

theorem withCache_attachments (w : World) (handle : Nat) :
    (withCache w handle).attachments = w.attachments := by
  unfold withCache; split <;> rfl

theorem withCache_wiredKeys (w : World) (handle h : Nat) :
    wiredKeys (withCache w handle) h = wiredKeys w h := by
  unfold withCache
  split
  · rfl
  · next hnone => exact wiredKeys_create w handle h hnone

theorem withCache_isSome (w : World) (handle : Nat) :
    ∃ c, wiredGet (withCache w handle).wired handle = some c := by
  unfold withCache
  split
  · next c hc => exact ⟨c, hc⟩
  · exact ⟨[], wiredGet_wiredSet_self _ _ _⟩

theorem withCache_of_isSome (w : World) (handle : Nat) (c : List String)
    (h : wiredGet w.wired handle = some c) : withCache w handle = w := by
  unfold withCache; rw [h]

theorem addKey_models (w : World) (h : Nat) (key : String) : (addKey w h key).models = w.models :=
  rfl

theorem addKey_attachments (w : World) (h : Nat) (key : String) :
    (addKey w h key).attachments = w.attachments := rfl

theorem mem_wiredKeys_addKey (w : World) (h : Nat) (key : String) :
    key ∈ wiredKeys (addKey w h key) h := by
  unfold addKey wiredKeys
  simp only [wiredGet_wiredSet_self, Option.getD_some]
  split
  · assumption
  · simp

theorem withCache_of_mem (w : World) (h : Nat) (key : String) (hmem : key ∈ wiredKeys w h) :
    withCache w h = w := by
  unfold wiredKeys at hmem
  cases hc : wiredGet w.wired h with
  | none => rw [hc] at hmem; simp at hmem
  | some c => exact withCache_of_isSome w h c hc

theorem register_wired (w : World) (s : Nat) (a : Association) :
    (register w s a).wired = w.wired := rfl

theorem register_attachments (w : World) (s : Nat) (a : Association) :
    (register w s a).attachments =
      w.attachments ++ [{ source := s, as := a.as, association := a }] :=
  rfl

theorem register_library (w : World) (s : Nat) (a : Association) :
    (register w s a).library = w.library := rfl

theorem wiredKeys_register (w : World) (s : Nat) (a : Association) (h : Nat) :
    wiredKeys (register w s a) h = wiredKeys w h := rfl

theorem withCache_library (w : World) (handle : Nat) :
    (withCache w handle).library = w.library := by
  unfold withCache; split <;> rfl

/-- Registering an association keeps the position and the name of every entity. -/
theorem entity_register (w : World) (s : Nat) (a : Association) (ref : Option Nat) (i : Nat)
    (m : Model) (h : entity w ref = some (i, m)) :
    ∃ m2, entity (register w s a) ref = some (i, m2) ∧ m2.name = m.name := by
  cases ref with
  | none => simp [entity] at h
  | some k =>
    simp only [entity] at h ⊢
    cases hk : w.models[k]? with
    | none => rw [hk] at h; simp at h
    | some mk =>
      rw [hk] at h
      simp only [Option.some.injEq, Prod.mk.injEq] at h
      obtain ⟨hi, hm⟩ := h
      subst hi; subst hm
      simp only [register, getElem?_updateModel, hk, Option.map_some']
      by_cases hks : k = s
      · simp only [hks, if_true]
        exact ⟨_, rfl, rfl⟩
      · simp only [hks, if_false]
        exact ⟨_, rfl, rfl⟩

/-- The three outcomes of a library call followed by the recording of the key. -/
theorem recordKey_attach (w : World) (s : Nat) (a : Association) (h : Nat) (key : String) :
    (w.library w.models s a = .returns ∧
      recordKey (attach w s a) h key = (addKey (register w s a) h key, .ok ())) ∨
    (∃ e, w.library w.models s a = .throwsBefore e ∧ recordKey (attach w s a) h key = (w, .error e)) ∨
    (∃ e, w.library w.models s a = .throwsAfter e ∧
      recordKey (attach w s a) h key = (register w s a, .error e)) := by
  cases hl : w.library w.models s a with
  | returns => exact Or.inl ⟨rfl, by simp [recordKey, attach, hl]⟩
  | throwsBefore e => exact Or.inr (Or.inl ⟨e, rfl, by simp [recordKey, attach, hl]⟩)
  | throwsAfter e => exact Or.inr (Or.inr ⟨e, rfl, by simp [recordKey, attach, hl]⟩)

theorem entity_withCache (w : World) (h : Nat) (ref : Option Nat) :
    entity (withCache w h) ref = entity w ref := by
  unfold entity
  rw [withCache_models]

theorem entity_addKey (w : World) (h : Nat) (key : String) (ref : Option Nat) :
    entity (addKey w h key) ref = entity w ref := rfl

theorem ensureAssociation_missing_entity (handle : Nat) (d : Descriptor) (w : World)
    (h : entity w d.«from» = none ∨ entity w d.«to» = none) :
    ensureAssociation (some handle) d w =
      (w, .error "ensureAssociation: 'from' and 'to' are required") := by
  unfold ensureAssociation
  rcases h with h | h
  · simp [h]
  · cases hf : entity w d.«from» <;> simp [h]

theorem ensureAssociation_missing_name (handle : Nat) (d : Descriptor) (w : World)
    (sf st : Nat × Model) (hf : entity w d.«from» = some sf) (ht : entity w d.«to» = some st)
    (h : present d.as = none ∨ present d.type = none) :
    ensureAssociation (some handle) d w =
      (w, .error "ensureAssociation: 'as' and 'type' are required") := by
  unfold ensureAssociation
  rcases h with h | h
  · simp [hf, ht, h]
  · cases ha : present d.as <;> simp [hf, ht, h]

theorem ensureAssociation_present (handle : Nat) (d : Descriptor) (w : World)
    (source target : Nat) (fromModel toModel : Model) (as type : String)
    (hf : entity w d.«from» = some (source, fromModel))
    (ht : entity w d.«to» = some (target, toModel))
    (ha : present d.as = some as) (hty : present d.type = some type) :
    ensureAssociation (some handle) d w =
      if _assocKey fromModel toModel as type ∈ wiredKeys (withCache w handle) handle then
        (withCache w handle, .ok ())
      else if exposes fromModel as then
        (addKey (withCache w handle) handle (_assocKey fromModel toModel as type), .ok ())
      else if type = "hasMany" then
        recordKey (attach (withCache w handle) source
          { kind := "hasMany", target := target, as := as, foreignKey := d.foreignKey,
            sourceKey := d.sourceKey, targetKey := none, through := none,
            constraints := d.constraints }) handle (_assocKey fromModel toModel as type)
      else if type = "belongsTo" then
        recordKey (attach (withCache w handle) source
          { kind := "belongsTo", target := target, as := as, foreignKey := d.foreignKey,
            sourceKey := none, targetKey := d.targetKey, through := none,
            constraints := d.constraints }) handle (_assocKey fromModel toModel as type)
      else if type = "belongsToMany" then
        match present d.through with
        | none => (withCache w handle, .error "belongsToMany requires 'through'")
        | some through =>
          recordKey (attach (withCache w handle) source
            { kind := "belongsToMany", target := target, as := as, foreignKey := d.foreignKey,
              sourceKey := none, targetKey := none, through := some through,
              constraints := d.constraints }) handle (_assocKey fromModel toModel as type)
      else (withCache w handle, .error ("Unsupported association type: " ++ type)) := by
  unfold ensureAssociation
  simp only [hf, ht, ha, hty]

/-- The position a descriptor field refers to holds the entity found. -/
theorem models_of_entity (w : World) (ref : Option Nat) (i : Nat) (m : Model)
    (h : entity w ref = some (i, m)) : w.models[i]? = some m := by
  cases ref with
  | none => simp [entity] at h
  | some k =>
    simp only [entity] at h
    cases hk : w.models[k]? with
    | none => rw [hk] at h; simp at h
    | some mk =>
      rw [hk] at h
      simp only [Option.some.injEq, Prod.mk.injEq] at h
      rw [← h.1, ← h.2]; exact hk

theorem requested_as (d : Descriptor) (type as : String) (target : Nat) :
    (requested d type as target).as = as := by
  unfold requested
  split_ifs <;> rfl

/-- What a call does once the validation passed and the relationship is not wired: it
raises one of the two errors of the `switch`, leaving the world as the lookup of the
key set left it, or it makes one library call and records the key if that call
returned. -/
theorem ensureAssociation_unwired (handle : Nat) (d : Descriptor) (w : World)
    (source target : Nat) (fromModel toModel : Model) (as type : String)
    (hf : entity w d.«from» = some (source, fromModel))
    (ht : entity w d.«to» = some (target, toModel))
    (ha : present d.as = some as) (hty : present d.type = some type)
    (hkey : _assocKey fromModel toModel as type ∉ wiredKeys (withCache w handle) handle)
    (hexp : exposes fromModel as = false) :
    ((type ∉ supportedTypes ∨ (type = "belongsToMany" ∧ present d.through = none)) ∧
      ∃ e, ensureAssociation (some handle) d w = (withCache w handle, .error e)) ∨
    ((type ∈ supportedTypes ∧ (type = "belongsToMany" → ∃ t, present d.through = some t)) ∧
      ensureAssociation (some handle) d w =
        recordKey (attach (withCache w handle) source (requested d type as target)) handle
          (_assocKey fromModel toModel as type)) := by
  rw [ensureAssociation_present handle d w source target fromModel toModel as type hf ht ha hty]
  simp only [hkey, hexp, if_false, Bool.false_eq_true]
  by_cases h1 : type = "hasMany"
  · subst h1
    refine Or.inr ⟨⟨by decide, by intro h; exact absurd h (by decide)⟩, ?_⟩
    simp [requested]
  · by_cases h2 : type = "belongsTo"
    · subst h2
      refine Or.inr ⟨⟨by decide, by intro h; exact absurd h (by decide)⟩, ?_⟩
      simp [requested]
    · by_cases h3 : type = "belongsToMany"
      · subst h3
        cases hth : present d.through with
        | none => exact Or.inl ⟨Or.inr ⟨rfl, rfl⟩, "belongsToMany requires 'through'", by simp⟩
        | some through =>
          refine Or.inr ⟨⟨by decide, fun _ => ⟨through, rfl⟩⟩, ?_⟩
          simp [requested, hth]
      · refine Or.inl ⟨Or.inl ?_, "Unsupported association type: " ++ type, by simp [h1, h2, h3]⟩
        simp [supportedTypes, h1, h2, h3]

/-- The effect of any call.  Either nothing is registered: the entity handles, the
record of attachments and the library are as before, and the wired keys too when the
call raises.  Or the relationship was not wired and the library call registered the
association: it returned and the key was recorded, or it threw afterwards. -/
theorem ensureAssociation_effect (sequelize : Option Nat) (d : Descriptor) (w : World) :
    ((ensureAssociation sequelize d w).1.models = w.models ∧
      (ensureAssociation sequelize d w).1.attachments = w.attachments ∧
      (ensureAssociation sequelize d w).1.library = w.library ∧
      (∀ e, (ensureAssociation sequelize d w).2 = .error e →
        ∀ h, wiredKeys (ensureAssociation sequelize d w).1 h = wiredKeys w h)) ∨
    (∃ handle source fromModel target toModel as type,
      sequelize = some handle ∧
      entity w d.«from» = some (source, fromModel) ∧ entity w d.«to» = some (target, toModel) ∧
      present d.as = some as ∧ present d.type = some type ∧
      _assocKey fromModel toModel as type ∉ wiredKeys w handle ∧ exposes fromModel as = false ∧
      ((w.library w.models source (requested d type as target) = .returns ∧
          ensureAssociation sequelize d w =
            (addKey (register (withCache w handle) source (requested d type as target)) handle
              (_assocKey fromModel toModel as type), .ok ())) ∨
        (∃ e, w.library w.models source (requested d type as target) = .throwsAfter e ∧
          ensureAssociation sequelize d w =
            (register (withCache w handle) source (requested d type as target), .error e)))) := by
  have quiet : ∀ (w2 : World) (r : Except String Unit), w2.models = w.models →
      w2.attachments = w.attachments → w2.library = w.library →
      (∀ h, wiredKeys w2 h = wiredKeys w h) →
      ((w2, r).1.models = w.models ∧ (w2, r).1.attachments = w.attachments ∧
        (w2, r).1.library = w.library ∧
        (∀ e, (w2, r).2 = .error e → ∀ h, wiredKeys (w2, r).1 h = wiredKeys w h)) :=
    fun w2 r h1 h2 h3 h4 => ⟨h1, h2, h3, fun _ _ => h4⟩
  cases sequelize with
  | none => exact Or.inl (quiet _ _ rfl rfl rfl (fun _ => rfl))
  | some handle =>
    cases hf : entity w d.«from» with
    | none =>
      rw [ensureAssociation_missing_entity handle d w (Or.inl hf)]
      exact Or.inl (quiet _ _ rfl rfl rfl (fun _ => rfl))
    | some sf =>
      cases ht : entity w d.«to» with
      | none =>
        rw [ensureAssociation_missing_entity handle d w (Or.inr ht)]
        exact Or.inl (quiet _ _ rfl rfl rfl (fun _ => rfl))
      | some st =>
        cases ha : present d.as with
        | none =>
          rw [ensureAssociation_missing_name handle d w sf st hf ht (Or.inl ha)]
          exact Or.inl (quiet _ _ rfl rfl rfl (fun _ => rfl))
        | some as =>
          cases hty : present d.type with
          | none =>
            rw [ensureAssociation_missing_name handle d w sf st hf ht (Or.inr hty)]
            exact Or.inl (quiet _ _ rfl rfl rfl (fun _ => rfl))
          | some type =>
            obtain ⟨source, fromModel⟩ := sf
            obtain ⟨target, toModel⟩ := st
            have hq := quiet (withCache w handle)
            by_cases hkey : _assocKey fromModel toModel as type ∈ wiredKeys (withCache w handle) handle
            · rw [ensureAssociation_present handle d w source target fromModel toModel as type
                hf ht ha hty]
              simp only [hkey, if_true]
              exact Or.inl (hq _ (withCache_models w handle) (withCache_attachments w handle)
                (withCache_library w handle) (withCache_wiredKeys w handle))
            · by_cases hexp : exposes fromModel as = true
              · rw [ensureAssociation_present handle d w source target fromModel toModel as type
                  hf ht ha hty]
                simp only [hkey, hexp, if_true, if_false]
                refine Or.inl ⟨withCache_models w handle, withCache_attachments w handle,
                  withCache_library w handle, ?_⟩
                intro e he
                cases he
              · have hexp2 : exposes fromModel as = false := by simpa using hexp
                rcases ensureAssociation_unwired handle d w source target fromModel toModel as
                  type hf ht ha hty hkey hexp2 with ⟨_, e, he⟩ | ⟨_, he⟩
                · rw [he]
                  exact Or.inl (hq _ (withCache_models w handle) (withCache_attachments w handle)
                    (withCache_library w handle) (withCache_wiredKeys w handle))
                · rw [he]
                  have hkey2 : _assocKey fromModel toModel as type ∉ wiredKeys w handle := by
                    rw [← withCache_wiredKeys w handle handle]; exact hkey
                  rcases recordKey_attach (withCache w handle) source
                    (requested d type as target) handle (_assocKey fromModel toModel as type)
                    with ⟨hl, hr⟩ | ⟨e, hl, hr⟩ | ⟨e, hl, hr⟩
                  · rw [withCache_library, withCache_models] at hl
                    exact Or.inr ⟨handle, source, fromModel, target, toModel, as, type, rfl, rfl,
                      rfl, rfl, rfl, hkey2, hexp2, Or.inl ⟨hl, hr⟩⟩
                  · rw [hr]
                    exact Or.inl (hq _ (withCache_models w handle)
                      (withCache_attachments w handle) (withCache_library w handle)
                      (withCache_wiredKeys w handle))
                  · rw [withCache_library, withCache_models] at hl
                    exact Or.inr ⟨handle, source, fromModel, target, toModel, as, type, rfl, rfl,
                      rfl, rfl, rfl, hkey2, hexp2, Or.inr ⟨e, hl, hr⟩⟩

/-- Claim C8, amended.  `ensureAssociation` raises an error when the schema handle, the
`from` entity, the `to` entity, the alias or the type is missing; when the relationship
is not already wired (its key is not in the set and the test `from.associations[as]`
fails) it raises an error for `belongsToMany` without `through` and for an unsupported
type; and whenever it raises, the wired keys of every schema handle are as before the
call, and the entity handles and the record of attachments are as before the call
unless the error is the one of the library call, thrown after that call registered
the association. -/
theorem ensureAssociation_fails_fast (sequelize : Option Nat) (d : Descriptor) (w : World) :
    ((sequelize = none ∨ entity w d.«from» = none ∨ entity w d.«to» = none ∨
        present d.as = none ∨ present d.type = none) →
      ∃ e, (ensureAssociation sequelize d w).2 = .error e) ∧
    (∀ handle, sequelize = some handle → alreadyWired w handle d = false →
      ((present d.type = some "belongsToMany" ∧ present d.through = none) ∨
        (∀ type, present d.type = some type → type ∉ supportedTypes)) →
      ∃ e, (ensureAssociation sequelize d w).2 = .error e) ∧
    (∀ e, (ensureAssociation sequelize d w).2 = .error e →
      (∀ h, wiredKeys (ensureAssociation sequelize d w).1 h = wiredKeys w h) ∧
      (((ensureAssociation sequelize d w).1.models = w.models ∧
          (ensureAssociation sequelize d w).1.attachments = w.attachments) ∨
        ∃ source a, w.library w.models source a = .throwsAfter e ∧
          (ensureAssociation sequelize d w).1.attachments =
            w.attachments ++ [{ source := source, as := a.as, association := a }])) := by
  refine ⟨?_, ?_, ?_⟩
  · intro h
    cases sequelize with
    | none => exact ⟨_, rfl⟩
    | some handle =>
      cases hf : entity w d.«from» with
      | none => exact ⟨_, by rw [ensureAssociation_missing_entity handle d w (Or.inl hf)]⟩
      | some sf =>
        cases ht : entity w d.«to» with
        | none => exact ⟨_, by rw [ensureAssociation_missing_entity handle d w (Or.inr ht)]⟩
        | some st =>
          have h2 : present d.as = none ∨ present d.type = none := by
            rcases h with h | h | h | h | h
            · cases h
            · rw [h] at hf; cases hf
            · rw [h] at ht; cases ht
            · exact Or.inl h
            · exact Or.inr h
          exact ⟨_, by rw [ensureAssociation_missing_name handle d w sf st hf ht h2]⟩
  · intro handle hs hwired hbad
    subst hs
    cases hf : entity w d.«from» with
    | none => exact ⟨_, by rw [ensureAssociation_missing_entity handle d w (Or.inl hf)]⟩
    | some sf =>
      cases ht : entity w d.«to» with
      | none => exact ⟨_, by rw [ensureAssociation_missing_entity handle d w (Or.inr ht)]⟩
      | some st =>
        cases ha : present d.as with
        | none => exact ⟨_, by rw [ensureAssociation_missing_name handle d w sf st hf ht (Or.inl ha)]⟩
        | some as =>
          cases hty : present d.type with
          | none =>
            exact ⟨_, by rw [ensureAssociation_missing_name handle d w sf st hf ht (Or.inr hty)]⟩
          | some type =>
            obtain ⟨source, fromModel⟩ := sf
            obtain ⟨target, toModel⟩ := st
            simp only [alreadyWired, hf, ht, ha, hty, Bool.or_eq_false_iff,
              decide_eq_false_iff_not] at hwired
            have hkey : _assocKey fromModel toModel as type ∉
                wiredKeys (withCache w handle) handle := by
              rw [withCache_wiredKeys]; exact hwired.1
            rcases ensureAssociation_unwired handle d w source target fromModel toModel as type
              hf ht ha hty hkey hwired.2 with ⟨_, e, he⟩ | ⟨⟨hsup, hthrough⟩, _⟩
            · exact ⟨e, by rw [he]⟩
            · exfalso
              rcases hbad with ⟨hb, hnone⟩ | hb
              · rw [hty] at hb
                obtain ⟨t, ht2⟩ := hthrough (Option.some.inj hb)
                rw [hnone] at ht2; cases ht2
              · exact hb type hty hsup
  · intro e he
    rcases ensureAssociation_effect sequelize d w with ⟨hm, ha, _, hk⟩ |
      ⟨handle, source, fromModel, target, toModel, as, type, _, _, _, _, _, _, _, hcase⟩
    · exact ⟨hk e he, Or.inl ⟨hm, ha⟩⟩
    · rcases hcase with ⟨_, hr⟩ | ⟨e2, hl, hr⟩
      · rw [hr] at he; cases he
      · rw [hr] at he ⊢
        simp only [Except.error.injEq] at he
        subst he
        refine ⟨fun h => ?_, Or.inr ⟨source, requested d type as target, hl, ?_⟩⟩
        · simp only [wiredKeys_register, withCache_wiredKeys]
        · simp only [register_attachments, withCache_attachments]

/-- A call whose key is already in the set of the schema handle changes nothing. -/
theorem ensureAssociation_of_mem (handle : Nat) (d : Descriptor) (w : World)
    (source target : Nat) (fromModel toModel : Model) (as type : String)
    (hf : entity w d.«from» = some (source, fromModel))
    (ht : entity w d.«to» = some (target, toModel))
    (ha : present d.as = some as) (hty : present d.type = some type)
    (hmem : _assocKey fromModel toModel as type ∈ wiredKeys w handle) :
    ensureAssociation (some handle) d w = (w, .ok ()) := by
  rw [ensureAssociation_present handle d w source target fromModel toModel as type hf ht ha hty]
  rw [withCache_of_mem w handle _ hmem]
  simp [hmem]

theorem assocKey_congr (f1 f2 t1 t2 : Model) (as type : String) (hf : f2.name = f1.name)
    (ht : t2.name = t1.name) : _assocKey f2 t2 as type = _assocKey f1 t1 as type := by
  simp [_assocKey, hf, ht]

end Registrar

namespace Registrar

theorem exposesAt_withCache (w : World) (h i : Nat) (as : String) :
    exposesAt (withCache w h) i as = exposesAt w i as := by
  unfold exposesAt; rw [withCache_models]

theorem exposesAt_addKey (w : World) (h : Nat) (key : String) (i : Nat) (as : String) :
    exposesAt (addKey w h key) i as = exposesAt w i as := rfl

theorem exposesAt_of_entity (w : World) (ref : Option Nat) (i : Nat) (m : Model) (as : String)
    (h : entity w ref = some (i, m)) : exposesAt w i as = exposes m as := by
  cases ref with
  | none => simp [entity] at h
  | some k =>
    simp only [entity] at h
    cases hk : w.models[k]? with
    | none => rw [hk] at h; simp at h
    | some mk =>
      rw [hk] at h
      simp only [Option.some.injEq, Prod.mk.injEq] at h
      obtain ⟨hi, hm⟩ := h
      subst hi; subst hm
      simp [exposesAt, hk]

/-- After a registration the alias is exposed by the entity it was registered on. -/
theorem exposesAt_register_self (w : World) (s : Nat) (a : Association) (m : Model)
    (hm : w.models[s]? = some m) : exposesAt (register w s a) s a.as = true := by
  simp [exposesAt, register, getElem?_updateModel, hm, exposes, CrossJoin.lookup_setProp_self]

/-- A registration hides no alias. -/
theorem exposesAt_register_mono (w : World) (s : Nat) (a : Association) (i : Nat) (as : String)
    (h : exposesAt w i as = true) : exposesAt (register w s a) i as = true := by
  unfold exposesAt at h ⊢
  simp only [register, getElem?_updateModel]
  cases hm : w.models[i]? with
  | none => rw [hm] at h; simp at h
  | some m =>
    rw [hm] at h
    simp only [Option.map_some']
    simp only [] at h
    by_cases his : i = s
    · simp only [his, if_true]
      by_cases has : as = a.as
      · subst has; simp [exposes, CrossJoin.lookup_setProp_self]
      · unfold exposes at h ⊢
        cases hassoc : m.associations with
        | none => rw [hassoc] at h; simp at h
        | some table =>
          rw [hassoc] at h
          simp only [Option.getD_some, CrossJoin.lookup_setProp_ne table a.as as a has]
          exact h
    · simp only [his, if_false]
      exact h

/-- One call performs at most one attachment; it is made under an alias the entity
did not expose, which it exposes afterwards, and no alias stops being exposed. -/
theorem ensureAssociation_step (sequelize : Option Nat) (d : Descriptor) (w : World) :
    (∀ i as, exposesAt w i as = true → exposesAt (ensureAssociation sequelize d w).1 i as = true) ∧
    ∃ new, (ensureAssociation sequelize d w).1.attachments = w.attachments ++ new ∧
      (new = [] ∨ ∃ a, new = [a] ∧ exposesAt w a.source a.as = false ∧
        exposesAt (ensureAssociation sequelize d w).1 a.source a.as = true) := by
  rcases ensureAssociation_effect sequelize d w with ⟨hm, ha, _, _⟩ |
    ⟨handle, source, fromModel, target, toModel, as, type, _, hf, _, _, _, _, hexp, hcase⟩
  · refine ⟨?_, [], by simp [ha], Or.inl rfl⟩
    intro i as h
    unfold exposesAt at h ⊢
    rw [hm]; exact h
  · have hsrc : (withCache w handle).models[source]? = some fromModel := by
      rw [withCache_models]; exact models_of_entity w _ source fromModel hf
    have hbefore : exposesAt w source (requested d type as target).as = false := by
      rw [requested_as, exposesAt_of_entity w _ source fromModel as hf]; exact hexp
    have hmono : ∀ i as2, exposesAt w i as2 = true →
        exposesAt (register (withCache w handle) source (requested d type as target)) i as2 =
          true := by
      intro i as2 h
      apply exposesAt_register_mono
      rw [exposesAt_withCache]; exact h
    have hafter := exposesAt_register_self (withCache w handle) source
      (requested d type as target) fromModel hsrc
    generalize requested d type as target = a at hbefore hmono hafter hcase
    rcases hcase with ⟨_, hr⟩ | ⟨e, _, hr⟩
    · rw [hr]
      refine ⟨?_, [{ source := source, as := a.as, association := a }], ?_,
        Or.inr ⟨_, rfl, hbefore, ?_⟩⟩
      · intro i as2 h
        exact hmono i as2 h
      · simp [addKey_attachments, register_attachments, withCache_attachments]
      · exact hafter
    · rw [hr]
      refine ⟨hmono, [{ source := source, as := a.as, association := a }], ?_,
        Or.inr ⟨_, rfl, hbefore, hafter⟩⟩
      simp [register_attachments, withCache_attachments]

/-- Claim C6.  For every sequence of `ensureAssociation` calls run from any state of
the entity handles: every attachment the sequence performs is made on an entity under
an alias this entity did not expose when the sequence started, and no pair of entity
and alias is attached twice.  (A single call is the sequence of length one, so an
attachment is never made under an alias the entity exposes at the time of the call.) -/
theorem ensureAll_never_reattaches (calls : List (Option Nat × Descriptor)) (w : World) :
    ∃ new, (ensureAll calls w).attachments = w.attachments ++ new ∧
      (∀ a ∈ new, exposesAt w a.source a.as = false) ∧
      (new.map (fun a => (a.source, a.as))).Nodup := by
  induction calls generalizing w with
  | nil => exact ⟨[], by simp [ensureAll], by simp, by simp⟩
  | cons c rest ih =>
    obtain ⟨sequelize, d⟩ := c
    obtain ⟨hmono, new1, hnew1, hcase⟩ := ensureAssociation_step sequelize d w
    obtain ⟨new2, hnew2, hfresh2, hnodup2⟩ := ih (ensureAssociation sequelize d w).1
    have hfresh2w : ∀ a ∈ new2, exposesAt w a.source a.as = false := by
      intro a ha
      cases hx : exposesAt w a.source a.as with
      | false => rfl
      | true =>
        have := hmono _ _ hx
        rw [hfresh2 a ha] at this
        cases this
    refine ⟨new1 ++ new2, ?_, ?_, ?_⟩
    · simp only [ensureAll, hnew2, hnew1, List.append_assoc]
    · intro a ha
      rcases List.mem_append.mp ha with h | h
      · rcases hcase with hnil | ⟨b, hb, hbf, _⟩
        · rw [hnil] at h; cases h
        · rw [hb] at h
          simp only [List.mem_singleton] at h
          rw [h]; exact hbf
      · exact hfresh2w a h
    · rcases hcase with hnil | ⟨b, hb, _, hbt⟩
      · rw [hnil]; simpa using hnodup2
      · rw [hb]
        simp only [List.singleton_append, List.map_cons, List.nodup_cons]
        refine ⟨?_, hnodup2⟩
        intro hmem
        obtain ⟨a, ha, hkey⟩ := List.mem_map.mp hmem
        simp only [Prod.mk.injEq] at hkey
        have := hfresh2 a ha
        rw [hkey.1, hkey.2, hbt] at this
        cases this

end Registrar

namespace Registrar

/-- Claim C8 as stated fails.  With a library call that throws after it registered the
alias, `ensureAssociation` raises although an attachment has been performed: the entity
exposes the alias afterwards.  And with the alias `toString`, which no entity has
registered but every association table inherits, the unsupported kind `hasOne` raises
no error: the call returns normally and records the key. -/
theorem ensureAssociation_raises_after_attachment :
    (ensureAssociation (some 1) variantImagesUnknownKey strictVariantWorld).2 =
      .error "Unknown attribute nope passed as sourceKey" ∧
    exposesAt strictVariantWorld 0 "ProductImages_Variant" = false ∧
    exposesAt (ensureAssociation (some 1) variantImagesUnknownKey strictVariantWorld).1 0
      "ProductImages_Variant" = true ∧
    (ensureAssociation (some 1) variantImagesUnknownKey strictVariantWorld).1.attachments.map
      (fun a => (a.source, a.as)) = [(0, "ProductImages_Variant")] ∧
    variantWorld.models.map (fun m => m.associations) = [some [], some []] ∧
    variantWorld.wired = [] ∧
    (ensureAssociation (some 1) variantToStringHasOne variantWorld).2 = .ok () ∧
    (ensureAssociation (some 1) variantToStringHasOne variantWorld).1.wired =
      [(1, ["ProductVariant::hasOne::toString::ProductImage"])] :=
  ⟨rfl, rfl, rfl, rfl, rfl, rfl, rfl, rfl⟩

/-- The kind `hasOne` is refused and the world of the variants stays as it was. -/
theorem ensureAssociation_fails_fast_witness :
    (∃ e, (ensureAssociation (some 1) variantImagesHasOne variantWorld).2 = .error e) ∧
    (∀ h, wiredKeys (ensureAssociation (some 1) variantImagesHasOne variantWorld).1 h =
      wiredKeys variantWorld h) ∧
    (((ensureAssociation (some 1) variantImagesHasOne variantWorld).1.models =
          variantWorld.models ∧
        (ensureAssociation (some 1) variantImagesHasOne variantWorld).1.attachments =
          variantWorld.attachments) ∨
      ∃ source a, variantWorld.library variantWorld.models source a =
          .throwsAfter "Unsupported association type: hasOne" ∧
        (ensureAssociation (some 1) variantImagesHasOne variantWorld).1.attachments =
          variantWorld.attachments ++ [{ source := source, as := a.as, association := a }]) :=
  ⟨(ensureAssociation_fails_fast (some 1) variantImagesHasOne variantWorld).2.1 1 rfl rfl
      (Or.inr (fun type h => by
        have : type = "hasOne" := by
          have h2 : present variantImagesHasOne.type = some "hasOne" := rfl
          rw [h2] at h
          exact (Option.some.inj h).symm
        subst this
        decide)),
    (ensureAssociation_fails_fast (some 1) variantImagesHasOne variantWorld).2.2
      "Unsupported association type: hasOne" rfl⟩

end Registrar


namespace Registrar

theorem validDescriptor_iff (w : World) (d : Descriptor) (h : validDescriptor w d = true) :
    ∃ source fromModel target toModel as type,
      entity w d.«from» = some (source, fromModel) ∧ entity w d.«to» = some (target, toModel) ∧
      present d.as = some as ∧ present d.type = some type ∧ type ∈ supportedTypes ∧
      (type = "belongsToMany" → ∃ through, present d.through = some through) := by
  unfold validDescriptor at h
  cases hf : entity w d.«from» with
  | none => simp [hf] at h
  | some sf =>
    cases ht : entity w d.«to» with
    | none => simp [hf, ht] at h
    | some st =>
      cases ha : present d.as with
      | none => simp [hf, ht, ha] at h
      | some as =>
        cases hty : present d.type with
        | none => simp [hf, ht, ha, hty] at h
        | some type =>
          simp only [hf, ht, ha, hty, Bool.and_eq_true, decide_eq_true_eq, Bool.or_eq_true,
            bne_iff_ne, ne_eq] at h
          refine ⟨sf.1, sf.2, st.1, st.2, as, type, rfl, rfl, rfl, rfl, h.1, ?_⟩
          intro hm
          rcases h.2 with h2 | h2
          · exact absurd hm h2
          · exact Option.isSome_iff_exists.mp h2

/-- The second of two calls with a valid descriptor registers nothing: after the
first call either the library refuses the call again, or the alias is exposed, or the
key is recorded. -/
theorem ensureAssociation_twice (handle : Nat) (d : Descriptor) (w : World)
    (source target : Nat) (fromModel toModel : Model) (as type : String)
    (hf : entity w d.«from» = some (source, fromModel))
    (ht : entity w d.«to» = some (target, toModel))
    (ha : present d.as = some as) (hty : present d.type = some type)
    (hsup : type ∈ supportedTypes)
    (hthrough : type = "belongsToMany" → ∃ through, present d.through = some through) :
    (∃ new, (ensureAssociation (some handle) d w).1.attachments = w.attachments ++ new ∧
      new.length ≤ 1 ∧
      ((ensureAssociation (some handle) d w).2 = .ok () → alreadyWired w handle d = false →
        new.length = 1) ∧
      (ensureAssociation (some handle) d (ensureAssociation (some handle) d w).1).1.attachments =
        (ensureAssociation (some handle) d w).1.attachments) ∧
    ((ensureAssociation (some handle) d w).2 = .ok () →
      ensureAssociation (some handle) d (ensureAssociation (some handle) d w).1 =
        ((ensureAssociation (some handle) d w).1, .ok ())) := by
  have hw : alreadyWired w handle d =
      (decide (_assocKey fromModel toModel as type ∈ wiredKeys (withCache w handle) handle) ||
        exposes fromModel as) := by
    simp only [alreadyWired, hf, ht, ha, hty, withCache_wiredKeys]
  have hf1 : entity (withCache w handle) d.«from» = some (source, fromModel) := by
    rw [entity_withCache]; exact hf
  have ht1 : entity (withCache w handle) d.«to» = some (target, toModel) := by
    rw [entity_withCache]; exact ht
  by_cases hk : _assocKey fromModel toModel as type ∈ wiredKeys (withCache w handle) handle
  · have hfirst : ensureAssociation (some handle) d w = (withCache w handle, .ok ()) := by
      rw [ensureAssociation_present handle d w source target fromModel toModel as type hf ht ha
        hty]
      simp only [hk, if_true]
    have hsecond := ensureAssociation_of_mem handle d (withCache w handle) source target
      fromModel toModel as type hf1 ht1 ha hty hk
    rw [hfirst]
    refine ⟨⟨[], by simp [withCache_attachments], by simp, ?_, by simp only [hsecond]⟩,
      fun _ => hsecond⟩
    intro _ h
    rw [hw] at h; simp [hk] at h
  · by_cases he : exposes fromModel as = true
    · have hfirst : ensureAssociation (some handle) d w =
          (addKey (withCache w handle) handle (_assocKey fromModel toModel as type), .ok ()) := by
        rw [ensureAssociation_present handle d w source target fromModel toModel as type hf ht
          ha hty]
        simp only [hk, he, if_true, if_false]
      have hsecond := ensureAssociation_of_mem handle d
        (addKey (withCache w handle) handle (_assocKey fromModel toModel as type)) source target
        fromModel toModel as type hf1 ht1 ha hty (mem_wiredKeys_addKey _ _ _)
      rw [hfirst]
      refine ⟨⟨[], by simp [addKey_attachments, withCache_attachments], by simp, ?_,
        by simp only [hsecond]⟩, fun _ => hsecond⟩
      intro _ h
      rw [hw] at h; simp [he] at h
    · have he2 : exposes fromModel as = false := by simpa using he
      rcases ensureAssociation_unwired handle d w source target fromModel toModel as type hf ht
        ha hty hk he2 with ⟨hbad, _⟩ | ⟨_, hfirst⟩
      · exfalso
        rcases hbad with hbad | ⟨hb, hnone⟩
        · exact hbad hsup
        · obtain ⟨t, ht2⟩ := hthrough hb
          rw [hnone] at ht2; cases ht2
      · have hsrc : (withCache w handle).models[source]? = some fromModel :=
          models_of_entity _ _ source fromModel hf1
        have has : (requested d type as target).as = as := requested_as d type as target
        rcases recordKey_attach (withCache w handle) source (requested d type as target) handle
          (_assocKey fromModel toModel as type) with ⟨_, hr⟩ | ⟨e, hl, hr⟩ | ⟨e, _, hr⟩
        · -- the library call returned
          rw [hr] at hfirst
          obtain ⟨f2, hf2, hfn⟩ := entity_register (withCache w handle) source
            (requested d type as target) _ _ _ hf1
          obtain ⟨t2, ht2, htn⟩ := entity_register (withCache w handle) source
            (requested d type as target) _ _ _ ht1
          have hsecond := ensureAssociation_of_mem handle d
            (addKey (register (withCache w handle) source (requested d type as target)) handle
              (_assocKey fromModel toModel as type)) source target f2 t2 as type hf2 ht2 ha hty
            (by rw [assocKey_congr fromModel f2 toModel t2 as type hfn htn]
                exact mem_wiredKeys_addKey _ _ _)
          rw [hfirst]
          refine ⟨⟨[Attachment.mk source (requested d type as target).as
            (requested d type as target)], ?_, by simp, fun _ _ => by simp,
            by simp only [hsecond]⟩, fun _ => hsecond⟩
          simp [addKey_attachments, register_attachments, withCache_attachments]
        · -- the library call threw before registering: the second call is refused again
          rw [hr] at hfirst
          rw [hfirst]
          refine ⟨⟨[], by simp [withCache_attachments], by simp, ?_, ?_⟩, ?_⟩
          · intro h; cases h
          · rcases ensureAssociation_effect (some handle) d (withCache w handle) with
              ⟨_, hatt, _, _⟩ | ⟨handle2, source2, fm2, target2, tm2, as2, type2, _, hf2, ht2, ha2,
                hty2, _, _, hcase⟩
            · exact hatt
            · exfalso
              rw [hf1] at hf2
              rw [ht1] at ht2
              rw [ha] at ha2
              rw [hty] at hty2
              simp only [Option.some.injEq, Prod.mk.injEq] at hf2 ht2 ha2 hty2
              obtain ⟨hs, _⟩ := hf2
              obtain ⟨htg, _⟩ := ht2
              subst hs; subst htg; subst ha2; subst hty2
              rcases hcase with ⟨hl2, _⟩ | ⟨e2, hl2, _⟩
              · rw [hl] at hl2; cases hl2
              · rw [hl] at hl2; cases hl2
          · intro h; cases h
        · -- the library call threw after registering: the second call finds the alias
          rw [hr] at hfirst
          rw [hfirst]
          refine ⟨⟨[Attachment.mk source (requested d type as target).as
            (requested d type as target)], ?_, by simp, fun _ _ => by simp, ?_⟩, ?_⟩
          · simp [register_attachments, withCache_attachments]
          · rcases ensureAssociation_effect (some handle) d
                (register (withCache w handle) source (requested d type as target)) with
              ⟨_, hatt, _, _⟩ | ⟨handle2, source2, fm2, target2, tm2, as2, type2, _, hf2, _, ha2,
                _, _, hexp2, _⟩
            · exact hatt
            · exfalso
              obtain ⟨f3, hf3, _⟩ := entity_register (withCache w handle) source
                (requested d type as target) _ _ _ hf1
              have hself := exposesAt_register_self (withCache w handle) source
                (requested d type as target) fromModel hsrc
              rw [has, exposesAt_of_entity _ _ source f3 as hf3] at hself
              rw [hf3] at hf2
              rw [ha] at ha2
              simp only [Option.some.injEq, Prod.mk.injEq] at hf2 ha2
              obtain ⟨_, hfm⟩ := hf2
              subst hfm; subst ha2
              rw [hself] at hexp2; cases hexp2
          · intro h; cases h

/-- Claim C2 as stated fails.  The descriptor of the images of a variant with the
source key `nope` is valid for `ensureAssociation`, but the library call throws after
it registered the alias: the first call raises and records no key, and the second call
with the same descriptor returns normally and adds the key to the set of the schema
handle.  And with the alias `toString`, which no entity has registered but every
association table inherits, the first call of a relationship that was never wired
performs no attachment. -/
theorem second_call_records_key_after_error :
    validDescriptor strictVariantWorld variantImagesUnknownKey = true ∧
    (ensureAssociation (some 1) variantImagesUnknownKey strictVariantWorld).2 =
      .error "Unknown attribute nope passed as sourceKey" ∧
    (ensureAssociation (some 1) variantImagesUnknownKey strictVariantWorld).1.wired = [(1, [])] ∧
    (ensureAssociation (some 1) variantImagesUnknownKey
      (ensureAssociation (some 1) variantImagesUnknownKey strictVariantWorld).1).2 = .ok () ∧
    (ensureAssociation (some 1) variantImagesUnknownKey
      (ensureAssociation (some 1) variantImagesUnknownKey strictVariantWorld).1).1.wired =
      [(1, ["ProductVariant::hasMany::ProductImages_Variant::ProductImage"])] ∧
    validDescriptor variantWorld variantToString = true ∧
    variantWorld.models.map (fun m => m.associations) = [some [], some []] ∧
    variantWorld.wired = [] ∧
    (ensureAssociation (some 1) variantToString variantWorld).2 = .ok () ∧
    (ensureAssociation (some 1) variantToString variantWorld).1.attachments = [] :=
  ⟨rfl, rfl, rfl, rfl, rfl, rfl, rfl, rfl, rfl, rfl⟩

/-- Claim C2, amended.  With a valid descriptor, in every state, two calls of
`ensureAssociation` in a row with the same descriptor perform at most one attachment
in total, and the second call performs none.  When the first call returns normally, it
has performed exactly one attachment if the relationship was not wired before it (its
key not in the set of the schema handle and the test `from.associations[as]` failing),
and the second call returns normally and leaves the whole state (entity handles, wired
keys, record of attachments) exactly as the first call left it. -/
theorem ensureAssociation_idempotent (handle : Nat) (d : Descriptor) (w : World)
    (hvalid : validDescriptor w d = true) :
    (∃ new, (ensureAssociation (some handle) d w).1.attachments = w.attachments ++ new ∧
      new.length ≤ 1 ∧
      ((ensureAssociation (some handle) d w).2 = .ok () → alreadyWired w handle d = false →
        new.length = 1) ∧
      (ensureAssociation (some handle) d (ensureAssociation (some handle) d w).1).1.attachments =
        (ensureAssociation (some handle) d w).1.attachments) ∧
    ((ensureAssociation (some handle) d w).2 = .ok () →
      ensureAssociation (some handle) d (ensureAssociation (some handle) d w).1 =
        ((ensureAssociation (some handle) d w).1, .ok ())) := by
  obtain ⟨source, fromModel, target, toModel, as, type, hf, ht, ha, hty, hsup, hthrough⟩ :=
    validDescriptor_iff w d hvalid
  exact ensureAssociation_twice handle d w source target fromModel toModel as type hf ht ha hty
    hsup hthrough

/-- The images of a variant are wired by the first call and left alone by the second. -/
theorem ensureAssociation_idempotent_witness :
    (∃ new, (ensureAssociation (some 1) variantImages variantWorld).1.attachments =
        variantWorld.attachments ++ new ∧
      new.length ≤ 1 ∧
      ((ensureAssociation (some 1) variantImages variantWorld).2 = .ok () →
        alreadyWired variantWorld 1 variantImages = false → new.length = 1) ∧
      (ensureAssociation (some 1) variantImages
        (ensureAssociation (some 1) variantImages variantWorld).1).1.attachments =
        (ensureAssociation (some 1) variantImages variantWorld).1.attachments) ∧
    ((ensureAssociation (some 1) variantImages variantWorld).2 = .ok () →
      ensureAssociation (some 1) variantImages
        (ensureAssociation (some 1) variantImages variantWorld).1 =
        ((ensureAssociation (some 1) variantImages variantWorld).1, .ok ())) :=
  ensureAssociation_idempotent 1 variantImages variantWorld rfl

end Registrar

namespace CrossJoin

/-- Claim C3 (defect of the code).  `productsNullSeller` holds a product whose
`seller_id` is null and a product of the seller named `null`.  The only key sent to
the store is the string `null` of the second product, and the store returns that
seller; yet the product without seller ends the join with this seller attached,
not with `null` (and with a one-element list, not `[]`, when `multi` is set):
`foreignMap[null]` reads the property named `null`. -/
theorem crossJoinModels_null_key_row_gets_row :
    (crossJoinModels productsNullSeller [sellerJoin sellersNamedNull false] 0).1.calls.map
        (fun calls => calls.map (fun options => options.«where»)) =
      [[[("seller_id", .list [.str "null"])]]] ∧
    (crossJoinModels productsNullSeller [sellerJoin sellersNamedNull false] 0).2 =
      .ok [[("id", .num 1), ("seller_id", .null),
            ("seller", .obj 0 [("seller_id", .str "null"), ("store_name", .str "Acme")])],
           [("id", .num 2), ("seller_id", .str "null"),
            ("seller", .obj 0 [("seller_id", .str "null"), ("store_name", .str "Acme")])]] ∧
    (crossJoinModels productsNullSeller [sellerJoin sellersNamedNull true] 0).2 =
      .ok [[("id", .num 1), ("seller_id", .null),
            ("seller", .arr 1 [(0, [("seller_id", .str "null"), ("store_name", .str "Acme")])])],
           [("id", .num 2), ("seller_id", .str "null"),
            ("seller", .arr 1 [(0, [("seller_id", .str "null"), ("store_name", .str "Acme")])])]] :=
  ⟨rfl, rfl, rfl⟩

/-- Claim C4 (defect of the code).  A product whose `seller_id` is the string
`constructor`, joined with cardinality one against a store that returns no row: the
alias is not `null` but the member `constructor` that `foreignMap` inherits from
`Object.prototype`. -/
theorem crossJoinModels_one_inherited_key :
    (crossJoinModels productsConstructor [sellerJoin noSellers false] 0).1.calls.map
        (fun calls => calls.map (fun options => options.«where»)) =
      [[[("seller_id", .list [.str "constructor"])]]] ∧
    (crossJoinModels productsConstructor [sellerJoin noSellers false] 0).2 =
      .ok [[("id", .num 1), ("seller_id", .str "constructor"),
            ("seller", .builtin "constructor")]] :=
  ⟨rfl, rfl⟩

/-- Claim C5 (defect of the code).  The same product joined with cardinality many
against a store that returns no row: the alias is not the empty list but the
inherited member `constructor`. -/
theorem crossJoinModels_many_inherited_key :
    (crossJoinModels productsConstructor [sellerJoin noSellers true] 0).2 =
      .ok [[("id", .num 1), ("seller_id", .str "constructor"),
            ("seller", .builtin "constructor")]] :=
  rfl

end CrossJoin

namespace Registrar

/-- Claim C7 (defect of the code).  From a state without wired keys, after the call
for `Order` has many `Item` as `items::archived`, the call for the different
relationship `Order` has many `archived::Item` as `items` has the same wired key.
It returns normally without attaching anything: `Order` does not expose `items`. -/
theorem ensureAssociation_key_collision :
    validDescriptor orderWorld archivedItems = true ∧
    validDescriptor (ensureAssociation (some 1) archivedItems orderWorld).1 orderItems = true ∧
    (ensureAssociation (some 1) archivedItems orderWorld).1.wired =
      [(1, ["Order::hasMany::items::archived::Item"])] ∧
    (ensureAssociation (some 1) orderItems
      (ensureAssociation (some 1) archivedItems orderWorld).1).2 = .ok () ∧
    exposesAt (ensureAssociation (some 1) orderItems
      (ensureAssociation (some 1) archivedItems orderWorld).1).1 0 "items" = false ∧
    (ensureAssociation (some 1) orderItems
      (ensureAssociation (some 1) archivedItems orderWorld).1).1.attachments.map
        (fun a => (a.source, a.as)) = [(0, "items::archived")] :=
  ⟨rfl, rfl, rfl, rfl, rfl, rfl⟩

end Registrar

namespace ModelCache

/-- Claim C9 (defect of the code).  The first call of `getModels` for the store name
`constructor`, whatever the connection provider: it returns the member `constructor`
that `modelCache` inherits from `Object.prototype`, without calling the connection
provider or the schema definition source and without storing anything. -/
theorem getModels_inherited_name (getDb : String → Except String Nat) :
    getModels getDb (some "constructor") initial = (initial, .ok (.builtin "constructor")) :=
  rfl

end ModelCache

namespace CrossJoin

/-! ## Which fields a join changes -/

theorem attach_getProp (m : ForeignMap) (j : JoinSpec) (name : String) (hne : name ≠ j.as) :
    ∀ (rows : List Row) (next : Nat),
      (attach m j rows next).1.map (fun row => getProp row name) =
        rows.map (fun row => getProp row name) := by
  intro rows
  induction rows with
  | nil => intro next; rfl
  | cons row rest ih =>
    intro next
    unfold attach
    simp only []
    split_ifs
    · simp only [List.map_cons, getProp_setProp_ne row j.as name _ hne, ih]
    · simp only [List.map_cons, getProp_setProp_ne row j.as name _ hne, ih]
    · simp only [List.map_cons, getProp_setProp_ne row j.as name _ hne, ih]

theorem attachEmpty_getProp (j : JoinSpec) (name : String) (hne : name ≠ j.as) :
    ∀ (rows : List Row) (next : Nat),
      (attachEmpty j rows next).1.map (fun row => getProp row name) =
        rows.map (fun row => getProp row name) := by
  intro rows
  induction rows with
  | nil => intro next; rfl
  | cons row rest ih =>
    intro next
    unfold attachEmpty
    split_ifs
    · simp only [List.map_cons, getProp_setProp_ne row j.as name _ hne, ih]
    · simp only [List.map_cons, getProp_setProp_ne row j.as name _ hne, ih]

/-- The loop body changes no field of the rows other than `as`. -/
theorem joinBody_getProp (j : JoinSpec) (st : JoinState) (name : String) (hne : name ≠ j.as) :
    (joinBody j st).1.rows.map (fun row => getProp row name) =
      st.rows.map (fun row => getProp row name) := by
  unfold joinBody
  by_cases h0 : (joinValues st.rows j.mapKey).length = 0
  · simp only [h0, if_true]
    exact attachEmpty_getProp j name hne st.rows st.next
  · simp only [h0, if_false]
    cases hf : fetchLoop j (joinValues st.rows j.mapKey) (joinValues st.rows j.mapKey).length 0
        { foreignData := [], next := st.next, calls := [] } with
    | none => rfl
    | some r =>
      obtain ⟨fs, err⟩ := r
      cases err with
      | some e => rfl
      | none =>
        simp only []
        cases hb : buildMap j.multi j.joinKey fs.foreignData fs.next with
        | error e => rfl
        | ok r => exact attach_getProp r.1 j name hne st.rows r.2

theorem joinLoop_getProp (name : String) (joins : List JoinSpec)
    (hne : ∀ p ∈ joins, p.as ≠ name) :
    ∀ st : JoinState, (joinLoop joins st).1.rows.map (fun row => getProp row name) =
      st.rows.map (fun row => getProp row name) := by
  induction joins with
  | nil => intro st; rfl
  | cons j rest ih =>
    intro st
    have hj : name ≠ j.as := fun e => hne j (List.mem_cons_self _ _) e.symm
    have hrest : ∀ p ∈ rest, p.as ≠ name := fun p hp => hne p (List.mem_cons_of_mem _ hp)
    cases hb : joinBody j st with
    | mk st1 err =>
      have hbody := joinBody_getProp j st name hj
      rw [hb] at hbody
      cases err with
      | some e => rw [joinLoop_cons_error j rest st st1 e hb]; exact hbody
      | none => rw [joinLoop_cons_ok j rest st st1 hb, ih hrest st1]; exact hbody

theorem joinValues_congr (rows1 rows2 : List Row) (name : String)
    (h : rows1.map (fun row => getProp row name) = rows2.map (fun row => getProp row name)) :
    joinValues rows1 name = joinValues rows2 name := by
  unfold joinValues
  rw [h]

/-- Claim C10 as stated fails.  After the join `sellerJoin` attached the seller of
`productsS1` under `seller`, a join whose `mapKey` is `seller` collects the attached
object as its key value and sends it to the store, while the original product has no
field `seller` and yields no key value. -/
theorem later_join_reads_earlier_alias :
    joinValues productsS1 "seller" = [] ∧
    joinValues (crossJoinModels productsS1 [sellerJoin sellers false] 0).1.rows "seller" =
      [.obj 0 [("seller_id", .str "S1"), ("store_name", .str "Acme")]] ∧
    (crossJoinModels productsS1 [sellerJoin sellers false, sellerAgainJoin] 0).1.calls.map
        (fun calls => calls.map (fun options => options.«where»)) =
      [[[("seller_id", .list [.str "S1"])]],
       [[("seller_id", .list [.obj 0 [("seller_id", .str "S1"), ("store_name", .str "Acme")]])]]] :=
  ⟨rfl, rfl, rfl⟩

/-- Claim C10, amended.  When the `mapKey` of a join differs from the alias `as` of
every join processed before it, the key values it collects, from the rows as the
earlier joins `pre` left them, are those of the original primary rows. -/
theorem crossJoinModels_keys_from_original (primaryData : List Row) (pre : List JoinSpec)
    (j : JoinSpec) (next : Nat) (hne : ∀ p ∈ pre, p.as ≠ j.mapKey) :
    joinValues (crossJoinModels primaryData pre next).1.rows j.mapKey =
      joinValues primaryData j.mapKey := by
  apply joinValues_congr
  by_cases h : primaryData = []
  · subst h; rfl
  · rw [crossJoinModels_state primaryData pre next h]
    exact joinLoop_getProp j.mapKey pre hne _

/-- A second join on `seller_id` after the join that attached `seller`. -/
theorem crossJoinModels_keys_from_original_witness :
    joinValues (crossJoinModels productsS1 [sellerJoin sellers false] 0).1.rows
        (sellerJoin sellers true).mapKey =
      joinValues productsS1 (sellerJoin sellers true).mapKey :=
  crossJoinModels_keys_from_original productsS1 [sellerJoin sellers false]
    (sellerJoin sellers true) 0 (by simp [sellerJoin])

end CrossJoin

namespace CrossJoin

/-- Every collected key value is truthy: a row whose `mapKey` field is null or absent
contributes no value to the keys sent to the store. -/
theorem joinValues_truthy (rows : List Row) (mapKey : String) (v : Val)
    (h : v ∈ joinValues rows mapKey) : truthy v = true := by
  unfold joinValues at h
  exact (List.mem_filter.mp h).2

end CrossJoin

namespace ModelCache

/-- The contract of `getModels` for a store name that is not the name of a member
inherited from `Object.prototype`: the first call asks the connection provider and the
schema definition source once each and stores the handle set, entries of other names
are untouched, and a later call returns the stored handle set without any further
call. -/
theorem getModels_ordinary_name (getDb : String → Except String Nat) (name : String)
    (s : State) (sequelize : Nat) (hname : name ≠ "")
    (hordinary : name ∉ CrossJoin.objectPrototypeNames)
    (hfirst : s.modelCache.lookup name = none) (hdb : getDb name = .ok sequelize) :
    (getModels getDb (some name) s).2 = .ok (.models s.nextProxy sequelize) ∧
    (getModels getDb (some name) s).1.getDbCalls = s.getDbCalls ++ [name] ∧
    (getModels getDb (some name) s).1.defineModelsCalls = s.defineModelsCalls ++ [sequelize] ∧
    (∀ other, other ≠ name →
      cacheGet (getModels getDb (some name) s).1.modelCache other = cacheGet s.modelCache other) ∧
    getModels getDb (some name) (getModels getDb (some name) s).1 =
      ((getModels getDb (some name) s).1, .ok (.models s.nextProxy sequelize)) := by
  have hpresent : Registrar.present (some name) = some name := by
    simp [Registrar.present, hname]
  have hmiss : cacheGet s.modelCache name = none := by
    simp [cacheGet, hfirst, hordinary]
  have hcall : getModels getDb (some name) s =
      ({ modelCache := CrossJoin.setProp s.modelCache name (.models s.nextProxy sequelize)
         getDbCalls := s.getDbCalls ++ [name]
         defineModelsCalls := s.defineModelsCalls ++ [sequelize]
         nextProxy := s.nextProxy + 1 }, .ok (.models s.nextProxy sequelize)) := by
    simp only [getModels, hpresent, hmiss, hdb]
  rw [hcall]
  refine ⟨rfl, rfl, rfl, ?_, ?_⟩
  · intro other hother
    simp only [cacheGet, CrossJoin.lookup_setProp_ne s.modelCache name other _ hother]
  · simp only [getModels, hpresent, cacheGet, CrossJoin.lookup_setProp_self]

/-- A call of `getModels` without store name, or with the empty name, raises an error
and leaves the module state unchanged. -/
theorem getModels_missing_name (getDb : String → Except String Nat) (s : State) :
    getModels getDb none s = (s, .error "dbName is required") ∧
    getModels getDb (some "") s = (s, .error "dbName is required") :=
  ⟨rfl, rfl⟩

end ModelCache

namespace CrossJoin

/-! ## The collected key values -/

theorem sameValueZero_self (v : Val) : sameValueZero v v = true := by
  cases v <;> simp [sameValueZero]

theorem sameValueZero_comm (u v : Val) : sameValueZero u v = sameValueZero v u := by
  cases u <;> cases v <;> simp [sameValueZero, eq_comm]

/-- Values that are the same for `SameValueZero` are both truthy or both falsy. -/
theorem truthy_congr (u v : Val) (h : sameValueZero u v = true) : truthy u = truthy v := by
  cases u <;> cases v <;> simp_all [sameValueZero, truthy]

/-- For a value that is not an object, `SameValueZero` is equality. -/
theorem sameValueZero_eq (u v : Val) (hv : isObject v = false) (h : sameValueZero u v = true) :
    u = v := by
  cases u <;> cases v <;> simp_all [sameValueZero, isObject]

/-- The elements of a `Set` under construction stay in it. -/
theorem setOf_mono (values : List Val) : ∀ (acc : List Val) (v : Val), v ∈ acc →
    v ∈ values.foldl (fun acc v => if acc.any (sameValueZero v) then acc else acc ++ [v]) acc := by
  induction values with
  | nil => intro acc v h; exact h
  | cons x rest ih =>
    intro acc v h
    simp only [List.foldl_cons]
    apply ih
    split
    · exact h
    · exact List.mem_append_left _ h

/-- A `Set` holds only values that were added to it. -/
theorem setOf_sub (values : List Val) : ∀ (acc : List Val) (v : Val),
    v ∈ values.foldl (fun acc v => if acc.any (sameValueZero v) then acc else acc ++ [v]) acc →
    v ∈ acc ∨ v ∈ values := by
  induction values with
  | nil => intro acc v h; exact Or.inl h
  | cons x rest ih =>
    intro acc v h
    simp only [List.foldl_cons] at h
    rcases ih _ v h with h1 | h1
    · split at h1
      · exact Or.inl h1
      · rcases List.mem_append.mp h1 with h2 | h2
        · exact Or.inl h2
        · simp only [List.mem_singleton] at h2
          exact Or.inr (h2 ▸ List.mem_cons_self _ _)
    · exact Or.inr (List.mem_cons_of_mem _ h1)

/-- Every value added to a `Set` is represented in it. -/
theorem setOf_cover (values : List Val) : ∀ (acc : List Val) (v : Val), v ∈ values →
    ∃ u ∈ values.foldl (fun acc v => if acc.any (sameValueZero v) then acc else acc ++ [v]) acc,
      sameValueZero v u = true := by
  induction values with
  | nil => intro acc v h; cases h
  | cons x rest ih =>
    intro acc v h
    simp only [List.foldl_cons]
    rcases List.mem_cons.mp h with h | h
    · subst h
      by_cases hx : acc.any (sameValueZero v) = true
      · simp only [hx, if_true]
        obtain ⟨u, hu, hsame⟩ := List.any_eq_true.mp hx
        exact ⟨u, setOf_mono rest acc u hu, hsame⟩
      · simp only [hx]
        exact ⟨v, setOf_mono rest _ v (by simp), sameValueZero_self v⟩
    · exact ih _ v h

/-- A `Set` never holds two values that are the same for `SameValueZero`. -/
theorem setOf_pairwise (values : List Val) : ∀ (acc : List Val),
    acc.Pairwise (fun a b => sameValueZero a b = false) →
    (values.foldl (fun acc v => if acc.any (sameValueZero v) then acc else acc ++ [v]) acc).Pairwise
      (fun a b => sameValueZero a b = false) := by
  induction values with
  | nil => intro acc h; exact h
  | cons x rest ih =>
    intro acc h
    simp only [List.foldl_cons]
    apply ih
    by_cases hx : acc.any (sameValueZero x) = true
    · simp only [hx, if_true]; exact h
    · rw [if_neg hx, List.pairwise_append]
      refine ⟨h, by simp, ?_⟩
      intro a ha b hb
      simp only [List.mem_singleton] at hb
      subst hb
      cases hab : sameValueZero a b with
      | false => rfl
      | true =>
        exfalso
        apply hx
        exact List.any_eq_true.mpr ⟨a, ha, by rw [sameValueZero_comm]; exact hab⟩

/-- Claim C11 as stated fails.  The products of `productsFalsyKeys` carry the key
values `0`, `false` and the empty string, none of which is null or absent; none is
collected, and the join issues no query. -/
theorem falsy_keys_not_collected :
    productsFalsyKeys.map (fun row => getProp row "seller_id") = [.num 0, .bool false, .str ""] ∧
    joinValues productsFalsyKeys "seller_id" = [] ∧
    (crossJoinModels productsFalsyKeys [sellerJoin sellers false] 0).1.calls = [[]] :=
  ⟨rfl, rfl, rfl⟩

/-- Claim C11, amended.  The key values collected from `mapKey` across the rows are
exactly the truthy values of that field (not null or absent, and not `false`, `0` or
the empty string), each once: every collected value is truthy and is the value of the
field in some row; every truthy value of the field in a row is represented among the
collected values; no two collected values are the same for `SameValueZero`; and for a
value that is not an object (string, number, boolean), being collected is being truthy
and equal to the field of some row. -/
theorem joinValues_collects_truthy (rows : List Row) (mapKey : String) :
    (∀ v, v ∈ joinValues rows mapKey →
      truthy v = true ∧ ∃ row ∈ rows, getProp row mapKey = v) ∧
    (∀ row ∈ rows, truthy (getProp row mapKey) = true →
      ∃ u ∈ joinValues rows mapKey, sameValueZero (getProp row mapKey) u = true) ∧
    (joinValues rows mapKey).Pairwise (fun a b => sameValueZero a b = false) ∧
    (∀ v, isObject v = false →
      (v ∈ joinValues rows mapKey ↔ truthy v = true ∧ ∃ row ∈ rows, getProp row mapKey = v)) := by
  have hsub : ∀ v, v ∈ joinValues rows mapKey →
      truthy v = true ∧ ∃ row ∈ rows, getProp row mapKey = v := by
    intro v hv
    unfold joinValues setOf at hv
    obtain ⟨hmem, htruthy⟩ := List.mem_filter.mp hv
    refine ⟨htruthy, ?_⟩
    rcases setOf_sub _ [] v hmem with h | h
    · cases h
    · obtain ⟨row, hrow, heq⟩ := List.mem_map.mp h
      exact ⟨row, hrow, heq⟩
  have hcover : ∀ row ∈ rows, truthy (getProp row mapKey) = true →
      ∃ u ∈ joinValues rows mapKey, sameValueZero (getProp row mapKey) u = true := by
    intro row hrow htruthy
    obtain ⟨u, hu, hsame⟩ := setOf_cover (rows.map (fun row => getProp row mapKey)) []
      (getProp row mapKey) (List.mem_map.mpr ⟨row, hrow, rfl⟩)
    refine ⟨u, ?_, hsame⟩
    unfold joinValues setOf
    refine List.mem_filter.mpr ⟨hu, ?_⟩
    rw [← truthy_congr _ _ hsame]; exact htruthy
  refine ⟨hsub, hcover, ?_, ?_⟩
  · unfold joinValues setOf
    exact List.Pairwise.filter _ (setOf_pairwise _ [] List.Pairwise.nil)
  · intro v hobj
    constructor
    · exact hsub v
    · rintro ⟨htruthy, row, hrow, heq⟩
      subst heq
      obtain ⟨u, hu, hsame⟩ := hcover row hrow htruthy
      have : u = getProp row mapKey := sameValueZero_eq u _ hobj (by rw [sameValueZero_comm]; exact hsame)
      rw [← this]; exact hu

end CrossJoin

namespace CrossJoin

/-! ## The queries of the batch loop -/

/-- The calls of the batch loop are the queries of consecutive batches. -/
theorem fetchLoop_shape (j : JoinSpec) (values : List Val) :
    ∀ (fuel i : Nat) (acc : FetchState) (r : FetchState × Option String),
      fetchLoop j values fuel i acc = some r →
      ∃ k, r.1.calls = acc.calls ++ (List.range k).map (fun n =>
          findOptions j values (slice values (i + n * BATCH_SIZE) (i + n * BATCH_SIZE + BATCH_SIZE))) ∧
        ∀ n, n < k → i + n * BATCH_SIZE < values.length := by
  intro fuel
  induction fuel with
  | zero =>
    intro i acc r h
    unfold fetchLoop at h
    split at h
    · cases h
    · simp only [Option.some.injEq] at h
      subst h
      exact ⟨0, by simp, fun n hn => absurd hn (Nat.not_lt_zero n)⟩
  | succ fuel ih =>
    intro i acc r h
    unfold fetchLoop at h
    by_cases hi : i < values.length
    · simp only [hi, if_true] at h
      cases hq : j.foreignModel.findAll (findOptions j values (slice values i (i + BATCH_SIZE))) with
      | error e =>
        rw [hq] at h
        simp only [Option.some.injEq] at h
        subst h
        refine ⟨1, by simp [List.range_succ_eq_map], ?_⟩
        intro n hn
        have : n = 0 := by omega
        subst this
        simpa using hi
      | ok result =>
        rw [hq] at h
        simp only [] at h
        obtain ⟨k, hk, hlt⟩ := ih (i + BATCH_SIZE) _ r h
        refine ⟨k + 1, ?_, ?_⟩
        · rw [hk, List.range_succ_eq_map]
          simp only [List.map_cons, List.map_map, List.append_assoc, List.singleton_append,
            Nat.zero_mul, Nat.add_zero]
          congr 2
          apply List.map_congr_left
          intro n _
          simp only [Function.comp, Nat.succ_eq_add_one]
          have e1 : i + BATCH_SIZE + n * BATCH_SIZE = i + (n + 1) * BATCH_SIZE := by
            simp only [BATCH_SIZE]; omega
          rw [e1]
        · intro n hn
          cases n with
          | zero => simpa using hi
          | succ n =>
            have := hlt n (by omega)
            simp only [BATCH_SIZE] at this ⊢
            omega
    · simp only [hi, if_false, Option.some.injEq] at h
      subst h
      exact ⟨0, by simp, fun n hn => absurd hn (Nat.not_lt_zero n)⟩

/-- When the query of batch `n` fails after the earlier batches were answered, the
batch loop ends with that error. -/
theorem fetchLoop_fails (j : JoinSpec) (values : List Val) (e : String) :
    ∀ (n fuel i : Nat) (acc : FetchState), n < fuel →
      i + n * BATCH_SIZE < values.length →
      (∀ m, m < n → ∃ r, j.foreignModel.findAll (findOptions j values
          (slice values (i + m * BATCH_SIZE) (i + m * BATCH_SIZE + BATCH_SIZE))) = .ok r) →
      j.foreignModel.findAll (findOptions j values
          (slice values (i + n * BATCH_SIZE) (i + n * BATCH_SIZE + BATCH_SIZE))) = .error e →
      ∃ fs, fetchLoop j values fuel i acc = some (fs, some e) := by
  intro n
  induction n with
  | zero =>
    intro fuel i acc hfuel hi _ hfail
    cases fuel with
    | zero => omega
    | succ fuel =>
      simp only [Nat.zero_mul, Nat.add_zero] at hi hfail
      unfold fetchLoop
      simp only [hi, if_true, hfail]
      exact ⟨_, rfl⟩
  | succ n ih =>
    intro fuel i acc hfuel hi hok hfail
    cases fuel with
    | zero => omega
    | succ fuel =>
      have hi0 : i < values.length := by omega
      obtain ⟨r, hr⟩ := hok 0 (by omega)
      simp only [Nat.zero_mul, Nat.add_zero] at hr
      unfold fetchLoop
      simp only [hi0, if_true, hr]
      have e1 : ∀ m, i + BATCH_SIZE + m * BATCH_SIZE = i + (m + 1) * BATCH_SIZE := by
        intro m; simp only [BATCH_SIZE]; omega
      apply ih fuel (i + BATCH_SIZE) _ (by omega)
      · rw [e1]; exact hi
      · intro m hm
        rw [e1]
        exact hok (m + 1) (by omega)
      · rw [e1]; exact hfail

end CrossJoin

namespace CrossJoin

/-! ## A store failure during a join -/

theorem attach_length (m : ForeignMap) (j : JoinSpec) :
    ∀ (rows : List Row) (next : Nat), (attach m j rows next).1.length = rows.length := by
  intro rows
  induction rows with
  | nil => intro next; rfl
  | cons row rest ih =>
    intro next
    unfold attach
    simp only []
    split_ifs <;> simp [ih]

theorem attachEmpty_length (j : JoinSpec) :
    ∀ (rows : List Row) (next : Nat), (attachEmpty j rows next).1.length = rows.length := by
  intro rows
  induction rows with
  | nil => intro next; rfl
  | cons row rest ih =>
    intro next
    unfold attachEmpty
    split_ifs <;> simp [ih]

theorem joinBody_rows_length (j : JoinSpec) (st : JoinState) :
    (joinBody j st).1.rows.length = st.rows.length := by
  unfold joinBody
  by_cases h0 : (joinValues st.rows j.mapKey).length = 0
  · simp only [h0, if_true]
    exact attachEmpty_length j st.rows st.next
  · simp only [h0, if_false]
    cases hf : fetchLoop j (joinValues st.rows j.mapKey) (joinValues st.rows j.mapKey).length 0
        { foreignData := [], next := st.next, calls := [] } with
    | none => rfl
    | some r =>
      obtain ⟨fs, err⟩ := r
      cases err with
      | some e => rfl
      | none =>
        simp only []
        cases hb : buildMap j.multi j.joinKey fs.foreignData fs.next with
        | error e => rfl
        | ok r => exact attach_length r.1 j st.rows r.2

theorem joinLoop_rows_length (joins : List JoinSpec) :
    ∀ st : JoinState, (joinLoop joins st).1.rows.length = st.rows.length := by
  induction joins with
  | nil => intro st; rfl
  | cons j rest ih =>
    intro st
    have hbody := joinBody_rows_length j st
    cases hb : joinBody j st with
    | mk st1 err =>
      rw [hb] at hbody
      cases err with
      | some e => rw [joinLoop_cons_error j rest st st1 e hb]; exact hbody
      | none => rw [joinLoop_cons_ok j rest st st1 hb, ih st1]; exact hbody

/-- A join whose batch `n` fails leaves the rows as they were and ends with the error
of the store. -/
theorem joinBody_store_failure (j : JoinSpec) (st : JoinState) (n : Nat) (e : String)
    (hn : n * BATCH_SIZE < (joinValues st.rows j.mapKey).length)
    (hok : ∀ m, m < n → ∃ r, j.foreignModel.findAll (findOptions j (joinValues st.rows j.mapKey)
        (batchOf (joinValues st.rows j.mapKey) m)) = .ok r)
    (hfail : j.foreignModel.findAll (findOptions j (joinValues st.rows j.mapKey)
        (batchOf (joinValues st.rows j.mapKey) n)) = .error e) :
    ∃ fs : FetchState, joinBody j st =
      ({ rows := st.rows, next := fs.next, calls := st.calls ++ [fs.calls] }, some e) := by
  have h0 : (joinValues st.rows j.mapKey).length ≠ 0 := by omega
  have hfuel : n < (joinValues st.rows j.mapKey).length := by
    simp only [BATCH_SIZE] at hn; omega
  obtain ⟨fs, hfs⟩ := fetchLoop_fails j (joinValues st.rows j.mapKey) e n
    (joinValues st.rows j.mapKey).length 0 { foreignData := [], next := st.next, calls := [] }
    hfuel (by simpa using hn)
    (by intro m hm; simpa [batchOf] using hok m hm)
    (by simpa [batchOf] using hfail)
  refine ⟨fs, ?_⟩
  unfold joinBody
  simp only [h0, if_false, hfs]

/-- Claim C12.  In a call with the joins `pre ++ j :: post` where the joins `pre`
completed, when the query of some batch of `j` fails with the error `e` after the
earlier batches of `j` were answered, `crossJoinModels` throws `e`; the primary rows
are then exactly as the joins `pre` left them, with neither the alias of `j` nor the
alias of a later join attached, and no join after `j` was started. -/
theorem crossJoinModels_store_failure (primaryData : List Row) (pre : List JoinSpec)
    (j : JoinSpec) (post : List JoinSpec) (next n : Nat) (e : String)
    (hpre : (joinLoop pre { rows := primaryData, next := next, calls := [] }).2 = none)
    (hn : n * BATCH_SIZE <
      (joinValues (joinLoop pre { rows := primaryData, next := next, calls := [] }).1.rows
        j.mapKey).length)
    (hok : ∀ m, m < n → ∃ r, j.foreignModel.findAll (findOptions j
        (joinValues (joinLoop pre { rows := primaryData, next := next, calls := [] }).1.rows j.mapKey)
        (batchOf (joinValues (joinLoop pre { rows := primaryData, next := next, calls := [] }).1.rows
          j.mapKey) m)) = .ok r)
    (hfail : j.foreignModel.findAll (findOptions j
        (joinValues (joinLoop pre { rows := primaryData, next := next, calls := [] }).1.rows j.mapKey)
        (batchOf (joinValues (joinLoop pre { rows := primaryData, next := next, calls := [] }).1.rows
          j.mapKey) n)) = .error e) :
    (crossJoinModels primaryData (pre ++ j :: post) next).2 = .error e ∧
    (crossJoinModels primaryData (pre ++ j :: post) next).1.rows =
      (joinLoop pre { rows := primaryData, next := next, calls := [] }).1.rows ∧
    (crossJoinModels primaryData (pre ++ j :: post) next).1.calls.length = pre.length + 1 := by
  obtain ⟨fs, hbody⟩ := joinBody_store_failure j
    (joinLoop pre { rows := primaryData, next := next, calls := [] }).1 n e hn hok hfail
  have hloop : joinLoop (pre ++ j :: post) { rows := primaryData, next := next, calls := [] } =
      ({ rows := (joinLoop pre { rows := primaryData, next := next, calls := [] }).1.rows
         next := fs.next
         calls := (joinLoop pre { rows := primaryData, next := next, calls := [] }).1.calls ++
           [fs.calls] }, some e) := by
    rw [joinLoop_append pre (j :: post) _ hpre]
    exact joinLoop_cons_error j post _ _ e hbody
  have hne : primaryData.length ≠ 0 := by
    intro h
    have hlen := joinLoop_rows_length pre { rows := primaryData, next := next, calls := [] }
    simp only [h] at hlen
    have hnil := List.length_eq_zero.mp hlen
    rw [hnil] at hn
    simp [joinValues, setOf] at hn
  have hcalls := joinLoop_calls_length pre { rows := primaryData, next := next, calls := [] } hpre
  unfold crossJoinModels
  simp only [hne, if_false, hloop, true_and]
  simp only [List.length_append, List.length_singleton, hcalls, List.length_nil, Nat.zero_add]

/-- The seller of `productsS1` is attached, then the store of the warehouses fails. -/
theorem crossJoinModels_store_failure_witness :
    (crossJoinModels productsS1 ([sellerJoin sellers false] ++ unreachableJoin :: [sellerAgainJoin])
      0).2 = .error "StoreQueryError: connection lost" ∧
    (crossJoinModels productsS1 ([sellerJoin sellers false] ++ unreachableJoin :: [sellerAgainJoin])
      0).1.rows =
      (joinLoop [sellerJoin sellers false] { rows := productsS1, next := 0, calls := [] }).1.rows ∧
    (crossJoinModels productsS1 ([sellerJoin sellers false] ++ unreachableJoin :: [sellerAgainJoin])
      0).1.calls.length = [sellerJoin sellers false].length + 1 :=
  crossJoinModels_store_failure productsS1 [sellerJoin sellers false] unreachableJoin
    [sellerAgainJoin] 0 0 "StoreQueryError: connection lost" rfl (by decide)
    (fun m hm => absurd hm (Nat.not_lt_zero m)) rfl

end CrossJoin

namespace CrossJoin

/-! ## The filter of a batch query -/

theorem keys_setProp {α : Type} (obj : List (String × α)) (name : String) (v : α) :
    (setProp obj name v).map Prod.fst =
      if name ∈ obj.map Prod.fst then obj.map Prod.fst else obj.map Prod.fst ++ [name] := by
  induction obj with
  | nil => simp [setProp]
  | cons kv rest ih =>
    obtain ⟨k, w⟩ := kv
    by_cases hk : k = name
    · subst hk; simp [setProp]
    · have hk2 : ¬ name = k := fun e => hk e.symm
      simp only [setProp, hk, if_false, List.map_cons, ih, List.mem_cons, hk2, false_or]
      split <;> simp

/-- A property write keeps the property names distinct. -/
theorem nodup_setProp {α : Type} (obj : List (String × α)) (name : String) (v : α)
    (h : (obj.map Prod.fst).Nodup) : ((setProp obj name v).map Prod.fst).Nodup := by
  rw [keys_setProp]
  split
  · exact h
  · next hmem =>
    rw [List.nodup_append]
    refine ⟨h, by simp, ?_⟩
    intro a ha hb
    simp only [List.mem_singleton] at hb
    subst hb
    exact hmem ha

theorem nodup_assign {α : Type} (src : List (String × α)) :
    ∀ target : List (String × α), (target.map Prod.fst).Nodup →
      ((assign target src).map Prod.fst).Nodup := by
  induction src with
  | nil => intro target h; exact h
  | cons kv rest ih =>
    intro target h
    simp only [assign, List.foldl_cons]
    exact ih _ (nodup_setProp target kv.1 kv.2 h)

/-- Reading a property after a spread: the last entry of `src` for the property, or
else the value the target had. -/
theorem lookup_assign {α : Type} (src : List (String × α)) (field : String) :
    ∀ target : List (String × α),
      (assign target src).lookup field = (src.reverse.lookup field).or (target.lookup field) := by
  induction src with
  | nil => intro target; simp [assign]
  | cons kv rest ih =>
    intro target
    obtain ⟨k, v⟩ := kv
    have hstep : assign target ((k, v) :: rest) = assign (setProp target k v) rest := by
      simp [assign]
    rw [hstep, ih, List.reverse_cons, List.lookup_append]
    by_cases hk : field = k
    · subst hk
      simp [lookup_setProp_self, List.lookup]
      cases (rest.reverse).lookup field <;> simp
    · have hb : (field == k) = false := beq_false_of_ne hk
      simp [lookup_setProp_ne target k field v hk, List.lookup, hb]

/-- With distinct property names the order of the entries does not matter for a read. -/
theorem lookup_reverse {α : Type} (obj : List (String × α)) (field : String)
    (h : (obj.map Prod.fst).Nodup) : obj.reverse.lookup field = obj.lookup field := by
  induction obj with
  | nil => rfl
  | cons kv rest ih =>
    obtain ⟨k, v⟩ := kv
    simp only [List.map_cons, List.nodup_cons] at h
    rw [List.reverse_cons, List.lookup_append, ih h.2]
    by_cases hk : field = k
    · subst hk
      have hnone : rest.lookup field = none := by
        rw [List.lookup_eq_none_iff]
        intro p hp
        simp only [bne_iff_ne, ne_eq]
        intro e
        exact h.1 (List.mem_map.mpr ⟨p, hp, e.symm⟩)
      simp [hnone, List.lookup]
    · have hb : (field == k) = false := beq_false_of_ne hk
      simp only [List.lookup, hb]
      cases rest.lookup field <;> rfl

theorem foldl_assign (filters : List WhereObj) :
    ∀ target : WhereObj, filters.foldl assign target = assign target filters.flatten := by
  induction filters with
  | nil => intro target; rfl
  | cons o rest ih =>
    intro target
    simp only [List.foldl_cons, List.flatten_cons, ih]
    simp [assign]

/-- For filter objects with distinct property names, the last entry of a field in the
concatenated entries is the value in the last object that carries the field. -/
theorem lookup_flatten_reverse (filters : List WhereObj) (field : String)
    (h : ∀ o ∈ filters, (o.map Prod.fst).Nodup) :
    filters.flatten.reverse.lookup field = lastFilterValue filters field := by
  unfold lastFilterValue
  induction filters with
  | nil => rfl
  | cons o rest ih =>
    have hrest : ∀ o ∈ rest, (o.map Prod.fst).Nodup := fun p hp => h p (List.mem_cons_of_mem _ hp)
    rw [List.flatten_cons, List.reverse_append, List.lookup_append, ih hrest, List.reverse_cons,
      List.findSome?_append, lookup_reverse o field (h o (List.mem_cons_self _ _))]
    congr 1
    cases hl : o.lookup field <;> simp [List.findSome?, hl]

/-- The filter of the query of a batch: the join key is restricted to the batch, and
every other field has the last entry the filter objects give it. -/
theorem findOptions_filter (j : JoinSpec) (values batch : List Val) :
    (findOptions j values batch).«where».lookup j.joinKey = some (.list batch) ∧
    ∀ field, field ≠ j.joinKey →
      (findOptions j values batch).«where».lookup field = j.«where».flatten.reverse.lookup field := by
  refine ⟨lookup_setProp_self _ _ _, ?_⟩
  intro field hne
  have hb : (field == j.joinKey) = false := beq_false_of_ne hne
  simp only [findOptions, lookup_setProp_ne _ j.joinKey field _ hne]
  have hnodup : ((finalWhere j.joinKey values j.«where»).map Prod.fst).Nodup := by
    unfold finalWhere
    simp only []
    split
    · exact nodup_assign _ _ (nodup_assign _ _ (by simp))
    · simp
  rw [lookup_assign, lookup_reverse _ _ hnodup]
  simp only [List.lookup_nil, Option.or_none]
  unfold finalWhere
  simp only []
  split
  · have hmerged : ((List.foldl assign [] j.«where»).map Prod.fst).Nodup := by
      rw [foldl_assign]; exact nodup_assign _ _ (by simp)
    rw [lookup_assign, lookup_reverse _ _ hmerged, foldl_assign, lookup_assign]
    simp [assign, setProp, List.lookup, hb]
  · next hlen =>
    have hnil : j.«where» = [] := by
      cases hw : j.«where» with
      | nil => rfl
      | cons o rest => rw [hw] at hlen; simp at hlen
    simp [hnil, List.lookup, hb]


/-- The calls recorded by the loop body are the queries of the first batches of the
collected key values. -/
theorem joinBody_calls_shape (j : JoinSpec) (st : JoinState) :
    ∃ k, (joinBody j st).1.calls = st.calls ++ [(List.range k).map (fun n =>
        findOptions j (joinValues st.rows j.mapKey) (batchOf (joinValues st.rows j.mapKey) n))] ∧
      ∀ n, n < k → n * BATCH_SIZE < (joinValues st.rows j.mapKey).length := by
  unfold joinBody
  by_cases h0 : (joinValues st.rows j.mapKey).length = 0
  · simp only [h0, if_true]
    exact ⟨0, by simp, fun n hn => absurd hn (Nat.not_lt_zero n)⟩
  · simp only [h0, if_false]
    cases hf : fetchLoop j (joinValues st.rows j.mapKey) (joinValues st.rows j.mapKey).length 0
        { foreignData := [], next := st.next, calls := [] } with
    | none => exact ⟨0, by simp, fun n hn => absurd hn (Nat.not_lt_zero n)⟩
    | some r =>
      obtain ⟨k, hk, hlt⟩ := fetchLoop_shape j _ _ 0 _ r hf
      have hcalls : r.1.calls = (List.range k).map (fun n =>
          findOptions j (joinValues st.rows j.mapKey)
            (batchOf (joinValues st.rows j.mapKey) n)) := by
        rw [hk]
        simp [batchOf]
      have hlt2 : ∀ n, n < k → n * BATCH_SIZE < (joinValues st.rows j.mapKey).length := by
        intro n hn
        simpa using hlt n hn
      obtain ⟨fs, err⟩ := r
      simp only [] at hcalls
      cases err with
      | some e => exact ⟨k, by simp only [hcalls], hlt2⟩
      | none =>
        simp only []
        cases hb : buildMap j.multi j.joinKey fs.foreignData fs.next with
        | error e => exact ⟨k, by simp only [hcalls], hlt2⟩
        | ok r => exact ⟨k, by simp only [hcalls], hlt2⟩

/-- In a call with the joins `pre ++ j :: post` where the joins `pre` completed, every
query issued for `j` is the query of one batch of the collected key values. -/
theorem crossJoinModels_query_of_batch (primaryData : List Row) (pre : List JoinSpec)
    (j : JoinSpec) (post : List JoinSpec) (next : Nat)
    (hpre : (joinLoop pre { rows := primaryData, next := next, calls := [] }).2 = none)
    (qs : List FindOptions)
    (hqs : (crossJoinModels primaryData (pre ++ j :: post) next).1.calls[pre.length]? = some qs)
    (q : FindOptions) (hq : q ∈ qs) :
    ∃ n,
      n * BATCH_SIZE <
        (joinValues (joinLoop pre { rows := primaryData, next := next, calls := [] }).1.rows
          j.mapKey).length ∧
      q = findOptions j
        (joinValues (joinLoop pre { rows := primaryData, next := next, calls := [] }).1.rows j.mapKey)
        (batchOf (joinValues (joinLoop pre { rows := primaryData, next := next, calls := [] }).1.rows
          j.mapKey) n) := by
  have hne : primaryData ≠ [] := by
    intro h
    subst h
    simp [crossJoinModels] at hqs
  rw [crossJoinModels_state primaryData _ next hne] at hqs
  obtain ⟨qs2, hbody, hat⟩ := joinLoop_calls_at pre j post
    { rows := primaryData, next := next, calls := [] } rfl hpre
  rw [hat] at hqs
  simp only [Option.some.injEq] at hqs
  subst hqs
  obtain ⟨k, hshape, hlt⟩ := joinBody_calls_shape j
    (joinLoop pre { rows := primaryData, next := next, calls := [] }).1
  rw [hbody] at hshape
  have hqs2 := List.append_cancel_left hshape
  simp only [List.cons.injEq, and_true] at hqs2
  rw [hqs2] at hq
  obtain ⟨n, hn, hqn⟩ := List.mem_map.mp hq
  exact ⟨n, hlt n (List.mem_range.mp hn), hqn.symm⟩

/-- Claim C13.  In a call with the joins `pre ++ j :: post` where the joins `pre`
completed, every query `q` issued for `j` is the query of one batch of the collected
key values: its filter restricts `joinKey` to exactly the key values of that batch,
also when a filter object of `where` carries an entry for `joinKey`, and gives every
other field the last entry the filter objects of `where` have for it, in list order,
which is the value in the last filter object that carries the field. -/
theorem crossJoinModels_batch_filter (primaryData : List Row) (pre : List JoinSpec)
    (j : JoinSpec) (post : List JoinSpec) (next : Nat)
    (hpre : (joinLoop pre { rows := primaryData, next := next, calls := [] }).2 = none)
    (qs : List FindOptions)
    (hqs : (crossJoinModels primaryData (pre ++ j :: post) next).1.calls[pre.length]? = some qs)
    (q : FindOptions) (hq : q ∈ qs) :
    ∃ n,
      n * BATCH_SIZE <
        (joinValues (joinLoop pre { rows := primaryData, next := next, calls := [] }).1.rows
          j.mapKey).length ∧
      q.«where».lookup j.joinKey = some (.list (batchOf
        (joinValues (joinLoop pre { rows := primaryData, next := next, calls := [] }).1.rows
          j.mapKey) n)) ∧
      ∀ field, field ≠ j.joinKey →
        q.«where».lookup field = j.«where».flatten.reverse.lookup field ∧
        ((∀ o ∈ j.«where», (o.map Prod.fst).Nodup) →
          q.«where».lookup field = lastFilterValue j.«where» field) := by
  obtain ⟨n, hn, hqn⟩ := crossJoinModels_query_of_batch primaryData pre j post next hpre qs hqs q hq
  subst hqn
  have hfilter := findOptions_filter j
    (joinValues (joinLoop pre { rows := primaryData, next := next, calls := [] }).1.rows j.mapKey)
    (batchOf (joinValues (joinLoop pre { rows := primaryData, next := next, calls := [] }).1.rows
      j.mapKey) n)
  refine ⟨n, hn, hfilter.1, ?_⟩
  intro field hfield
  refine ⟨hfilter.2 field hfield, ?_⟩
  intro hnodup
  rw [hfilter.2 field hfield, lookup_flatten_reverse _ _ hnodup]

/-- The query of the join with overlapping filter objects on `productsS1`. -/
theorem crossJoinModels_batch_filter_witness :
    ∃ n,
      n * BATCH_SIZE <
        (joinValues (joinLoop [] { rows := productsS1, next := 0, calls := [] }).1.rows
          overlappingFiltersJoin.mapKey).length ∧
      (findOptions overlappingFiltersJoin [.str "S1"] [.str "S1"]).«where».lookup
          overlappingFiltersJoin.joinKey = some (.list (batchOf
        (joinValues (joinLoop [] { rows := productsS1, next := 0, calls := [] }).1.rows
          overlappingFiltersJoin.mapKey) n)) ∧
      ∀ field, field ≠ overlappingFiltersJoin.joinKey →
        (findOptions overlappingFiltersJoin [.str "S1"] [.str "S1"]).«where».lookup field =
          overlappingFiltersJoin.«where».flatten.reverse.lookup field ∧
        ((∀ o ∈ overlappingFiltersJoin.«where», (o.map Prod.fst).Nodup) →
          (findOptions overlappingFiltersJoin [.str "S1"] [.str "S1"]).«where».lookup field =
            lastFilterValue overlappingFiltersJoin.«where» field) :=
  crossJoinModels_batch_filter productsS1 [] overlappingFiltersJoin [] 0 rfl
    [findOptions overlappingFiltersJoin [.str "S1"] [.str "S1"]] rfl
    (findOptions overlappingFiltersJoin [.str "S1"] [.str "S1"]) (List.mem_singleton.mpr rfl)

end CrossJoin

namespace CrossJoin

/-! ## The order of the foreign fetch -/

/-- Without `orderBy`, the query of every batch asks for `created_at` descending,
whatever the fields of the target entity. -/
theorem findOptions_default_order (j : JoinSpec) (values batch : List Val)
    (h : j.orderBy = []) : (findOptions j values batch).order = [("created_at", "DESC")] := by
  simp [findOptions, orderOf, h]

/-- With `orderBy`, the query of every batch orders by the given fields in the given
sequence, the direction in upper case, `ASC` when it is omitted. -/
theorem findOptions_given_order (j : JoinSpec) (values batch : List Val)
    (h : j.orderBy ≠ []) :
    (findOptions j values batch).order = j.orderBy.map (fun o =>
      (o.field,
        match o.direction with
        | some d => if toUpperCase d != "" then toUpperCase d else "ASC"
        | none => "ASC")) := by
  have hlen : (j.orderBy.length != 0) = true := by
    cases ho : j.orderBy with
    | nil => exact absurd ho h
    | cons o rest => simp
  simp only [findOptions, orderOf, hlen, if_true]

/-- Claim C14 as stated fails.  The seller join of `getProductDetailService` has no
`orderBy` and targets `SellerInfo`, an entity without the field `created_at`; the
query issued for it nevertheless asks for the order `created_at` descending. -/
theorem default_order_without_timestamp_field :
    "created_at" ∉ sellerInfo.rawAttributes ∧
    serviceSellerJoin.orderBy = [] ∧
    (crossJoinModels productsS1 [serviceSellerJoin] 0).1.calls.map
        (fun calls => calls.map (fun options => options.order)) = [[[("created_at", "DESC")]]] :=
  ⟨by decide, rfl, rfl⟩

/-- Claim C14, amended.  In a call with the joins `pre ++ j :: post` where the joins
`pre` completed, every query `q` issued for `j` carries this order: when `orderBy` is
not empty, the pairs of field and direction of `orderBy` in the given sequence, the
direction in upper case and `ASC` when it is omitted (or empty); when `orderBy` is
empty, the field `created_at` descending, whether or not the target entity has such a
field. -/
theorem crossJoinModels_batch_order (primaryData : List Row) (pre : List JoinSpec)
    (j : JoinSpec) (post : List JoinSpec) (next : Nat)
    (hpre : (joinLoop pre { rows := primaryData, next := next, calls := [] }).2 = none)
    (qs : List FindOptions)
    (hqs : (crossJoinModels primaryData (pre ++ j :: post) next).1.calls[pre.length]? = some qs)
    (q : FindOptions) (hq : q ∈ qs) :
    (j.orderBy ≠ [] →
      q.order = j.orderBy.map (fun o =>
        (o.field,
          match o.direction with
          | some d => if toUpperCase d != "" then toUpperCase d else "ASC"
          | none => "ASC"))) ∧
    (j.orderBy = [] → q.order = [("created_at", "DESC")]) := by
  obtain ⟨n, _, hqn⟩ := crossJoinModels_query_of_batch primaryData pre j post next hpre qs hqs q hq
  subst hqn
  exact ⟨findOptions_given_order j _ _, findOptions_default_order j _ _⟩

/-- The warehouse join on `productsS1` asks for `created_at` in the direction `DESC`. -/
theorem crossJoinModels_batch_order_witness :
    (serviceWarehouseJoin.orderBy ≠ [] →
      (findOptions serviceWarehouseJoin [.str "S1"] [.str "S1"]).order =
        serviceWarehouseJoin.orderBy.map (fun o =>
          (o.field,
            match o.direction with
            | some d => if toUpperCase d != "" then toUpperCase d else "ASC"
            | none => "ASC"))) ∧
    (serviceWarehouseJoin.orderBy = [] →
      (findOptions serviceWarehouseJoin [.str "S1"] [.str "S1"]).order = [("created_at", "DESC")]) :=
  crossJoinModels_batch_order productsS1 [] serviceWarehouseJoin [] 0 rfl
    [findOptions serviceWarehouseJoin [.str "S1"] [.str "S1"]] rfl
    (findOptions serviceWarehouseJoin [.str "S1"] [.str "S1"]) (List.mem_singleton.mpr rfl)

end CrossJoin
namespace CrossJoin

/-! ## The number of queries of a join -/

/-- Two values are the same for `SameValueZero` exactly when they have one identity. -/
theorem sameValueZero_iff (u v : Val) : sameValueZero u v = true ↔ identityOf u = identityOf v := by
  cases u <;> cases v <;> simp [sameValueZero, identityOf]

/-- The key values are the truthy values. -/
theorem isKeyValue_eq_truthy : isKeyValue = truthy := by
  funext v
  cases v with
  | bool b => cases b <;> simp [isKeyValue, nonNull, truthy]
  | num n => by_cases h : n = 0 <;> simp [isKeyValue, nonNull, truthy, h]
  | str s => by_cases h : s = "" <;> simp [isKeyValue, nonNull, truthy, h]
  | _ => simp [isKeyValue, nonNull, truthy]

/-- The collected key values are as many as the distinct key values of the field. -/
theorem joinValues_length (rows : List Row) (mapKey : String) :
    (joinValues rows mapKey).length = keyCount rows mapKey := by
  have hnodup : ((joinValues rows mapKey).map identityOf).Nodup := by
    unfold joinValues setOf
    rw [List.Nodup, List.pairwise_map]
    refine List.Pairwise.imp ?_
      (List.Pairwise.filter _ (setOf_pairwise (rows.map (fun row => getProp row mapKey)) []
        List.Pairwise.nil))
    intro a b hab heq
    rw [(sameValueZero_iff a b).mpr heq] at hab
    cases hab
  have hmem : ∀ x, x ∈ (joinValues rows mapKey).map identityOf ↔
      x ∈ ((rows.map (fun row => getProp row mapKey)).filter truthy).map identityOf := by
    intro x
    constructor
    · intro hx
      obtain ⟨v, hv, hvx⟩ := List.mem_map.mp hx
      unfold joinValues setOf at hv
      obtain ⟨hin, htruthy⟩ := List.mem_filter.mp hv
      rcases setOf_sub _ [] v hin with h | h
      · cases h
      · exact List.mem_map.mpr ⟨v, List.mem_filter.mpr ⟨h, htruthy⟩, hvx⟩
    · intro hx
      obtain ⟨v, hv, hvx⟩ := List.mem_map.mp hx
      obtain ⟨hin, htruthy⟩ := List.mem_filter.mp hv
      obtain ⟨u, hu, hsame⟩ := setOf_cover (rows.map (fun row => getProp row mapKey)) [] v hin
      refine List.mem_map.mpr ⟨u, ?_, ?_⟩
      · unfold joinValues setOf
        refine List.mem_filter.mpr ⟨hu, ?_⟩
        rw [← truthy_congr _ _ hsame]; exact htruthy
      · rw [← hvx]; exact ((sameValueZero_iff v u).mp hsame).symm
  unfold keyCount countDistinct
  rw [isKeyValue_eq_truthy, ← List.length_map (joinValues rows mapKey) identityOf, ← hnodup.dedup,
    ← List.card_toFinset, ← List.card_toFinset, List.toFinset.ext hmem]

/-- The number of distinct key values of a field that no earlier join wrote is the
one of the original rows. -/
theorem keyCount_joinLoop (name : String) (joins : List JoinSpec)
    (hne : ∀ p ∈ joins, p.as ≠ name) (st : JoinState) :
    keyCount (joinLoop joins st).1.rows name = keyCount st.rows name := by
  unfold keyCount countDistinct
  rw [joinLoop_getProp name joins hne st]

/-- Claim C1 as stated fails.  The products of `productsFalsyKeys` carry three
distinct non-null values of `seller_id` (`0`, `false` and the empty string), for which
the claim counts `ceil(3/500) = 1` query, and the join issues none.  The product of
`productsS1` has no field `seller`, so that the claim counts no query for a join on
`seller`; processed after the join that attaches the alias `seller`, that join issues
one query. -/
theorem distinct_keys_miscount_queries :
    distinctKeys productsFalsyKeys "seller_id" = 3 ∧
    (crossJoinModels productsFalsyKeys [sellerJoin sellers false] 0).1.calls.map List.length = [0] ∧
    distinctKeys productsS1 "seller" = 0 ∧
    (crossJoinModels productsS1 [sellerJoin sellers false, sellerAgainJoin] 0).1.calls.map
      List.length = [1, 1] :=
  ⟨by decide, rfl, by decide, rfl⟩

/-- Claim C1, amended.  For the join specification `j` at any position of
`joins = pre ++ j :: post`: when `primaryData` is empty, `crossJoinModels` returns the
empty array and issues no `findAll` call at all; otherwise, when the earlier joins
completed and the store of `j` answers its queries, the number of `findAll` calls
issued for `j` is exactly `ceil(N / 500)`, where `N` is the number of distinct key
values (not null or absent, and not `false`, `0` or the empty string; objects counted
by identity) of `mapKey` across the primary rows as they stand when `j` is processed.
When `mapKey` differs from the alias `as` of every earlier join, `N` is the number of
distinct key values of `mapKey` across the original `primaryData`.  The count depends on the rows only through `N`; it
is 0 when `N = 0` and 3 when `N = 1500`. -/
theorem crossJoinModels_query_count (primaryData : List Row) (pre : List JoinSpec)
    (j : JoinSpec) (post : List JoinSpec) (next : Nat) :
    (primaryData = [] →
      (crossJoinModels primaryData (pre ++ j :: post) next).2 = .ok [] ∧
      (crossJoinModels primaryData (pre ++ j :: post) next).1.calls = []) ∧
    (primaryData ≠ [] →
      (joinLoop pre { rows := primaryData, next := next, calls := [] }).2 = none →
      (∀ o, ∃ r, j.foreignModel.findAll o = .ok r) →
      ∃ qs,
        (crossJoinModels primaryData (pre ++ j :: post) next).1.calls[pre.length]? = some qs ∧
        qs.length = ⌈((keyCount (joinLoop pre { rows := primaryData, next := next, calls := [] }).1.rows
            j.mapKey : ℕ) : ℚ) / 500⌉₊ ∧
        (keyCount (joinLoop pre { rows := primaryData, next := next, calls := [] }).1.rows
            j.mapKey = 0 → qs = []) ∧
        (keyCount (joinLoop pre { rows := primaryData, next := next, calls := [] }).1.rows
            j.mapKey = 1500 → qs.length = 3) ∧
        ((∀ p ∈ pre, p.as ≠ j.mapKey) →
          keyCount (joinLoop pre { rows := primaryData, next := next, calls := [] }).1.rows
            j.mapKey = keyCount primaryData j.mapKey ∧
          qs.length = ⌈((keyCount primaryData j.mapKey : ℕ) : ℚ) / 500⌉₊)) := by
  constructor
  · intro h
    subst h
    simp [crossJoinModels]
  · intro hne hpre hstore
    obtain ⟨qs, hbody, hat⟩ := joinLoop_calls_at pre j post
      { rows := primaryData, next := next, calls := [] } rfl hpre
    obtain ⟨qs2, hbody2, hcount⟩ := joinBody_count j
      (joinLoop pre { rows := primaryData, next := next, calls := [] }).1 hstore
    have hq : qs = qs2 := by
      rw [hbody] at hbody2
      simpa using hbody2
    subst hq
    rw [joinValues_length] at hcount
    refine ⟨qs, ?_, ?_, ?_, ?_, ?_⟩
    · rw [crossJoinModels_state primaryData _ next hne]
      exact hat
    · rw [ceil_batches]
      exact hcount
    · intro h0
      rw [h0] at hcount
      exact List.length_eq_zero.mp (by simpa using hcount)
    · intro h0
      rw [h0] at hcount
      simpa using hcount
    · intro hpre2
      refine ⟨keyCount_joinLoop j.mapKey pre hpre2 _, ?_⟩
      rw [← keyCount_joinLoop j.mapKey pre hpre2 { rows := primaryData, next := next, calls := [] },
        ceil_batches]
      exact hcount

/-- One product of the seller `S1`, a join on `seller_id` processed after the join
that attached `seller`: it issues its calls as counted. -/
theorem crossJoinModels_query_count_witness :
    ∃ qs,
      (crossJoinModels productsS1 ([sellerJoin sellers false] ++ witnessJoin :: []) 0).1.calls[
          [sellerJoin sellers false].length]? = some qs ∧
      qs.length = ⌈((keyCount (joinLoop [sellerJoin sellers false]
          { rows := productsS1, next := 0, calls := [] }).1.rows witnessJoin.mapKey : ℕ) : ℚ) / 500⌉₊ ∧
      (keyCount (joinLoop [sellerJoin sellers false]
          { rows := productsS1, next := 0, calls := [] }).1.rows witnessJoin.mapKey = 0 → qs = []) ∧
      (keyCount (joinLoop [sellerJoin sellers false]
          { rows := productsS1, next := 0, calls := [] }).1.rows witnessJoin.mapKey = 1500 →
        qs.length = 3) ∧
      ((∀ p ∈ [sellerJoin sellers false], p.as ≠ witnessJoin.mapKey) →
        keyCount (joinLoop [sellerJoin sellers false]
          { rows := productsS1, next := 0, calls := [] }).1.rows witnessJoin.mapKey =
            keyCount productsS1 witnessJoin.mapKey ∧
        qs.length = ⌈((keyCount productsS1 witnessJoin.mapKey : ℕ) : ℚ) / 500⌉₊) :=
  (crossJoinModels_query_count productsS1 [sellerJoin sellers false] witnessJoin [] 0).2
    (by decide) rfl (fun _ => ⟨_, rfl⟩)

end CrossJoin
